import Mathlib

/-!
Verification of the logngine R*-tree core (`src/cpp/core/RSTTree.cpp`,
`src/cpp/include/logngine/core/RSTTree.h`).

Coordinates are modelled over an arbitrary linear ordered commutative ring `R`:
the source computes with IEEE doubles, but every arithmetic operation it
performs on finite coordinates is addition, subtraction, multiplication,
`min`, `max` and comparison, so the development holds over any such ring and
concrete evaluations use `R = ℤ`.

The default-constructed `MinimumBoundingRegion` of the source has
`min = +infinity`, `max = -infinity` componentwise and is only ever the start
value of `expand` chains before any arithmetic touches it; it is modelled as
`none : Option (MinimumBoundingRegion R)`, on which `expand` behaves exactly
as the all-infinite box does for finite inputs.  The `inf` initialisers of
`SplitTracker` and of the best-child fold are modelled as `⊤ : WithTop R`.

`std::array<double, D>` is modelled as `List R`; the slot arrays
`std::array<std::optional<MBR<D>>, L>` and the child-pointer arrays are
modelled as `List (Option _)` (a disengaged optional or a null pointer is
`none`).  The `std::variant` node is modelled as a height-stratified family
`RSTNode R S h` (height 0 = leaf): every tree the source's `insert` can build
is height-uniform, each internal child sitting exactly one level below its
parent, which the stratified type makes structural.
-/

namespace Logngine

/-- `MinimumBoundingRegion` (RSTTree.h:34-51) in its non-degenerate (finite)
state: componentwise `min` and `max` coordinate arrays. -/
structure MinimumBoundingRegion (R : Type) where
  min : List R
  max : List R
deriving DecidableEq, Repr

variable {R : Type} [LinearOrderedCommRing R] {S V : Type}

namespace MinimumBoundingRegion

/-- `MinimumBoundingRegion(const std::array<double, D>& point)`: the degenerate
box of a single point, `min = max = point` (RSTTree.h:39-41). -/
def ofPoint (p : List R) : MinimumBoundingRegion R := ⟨p, p⟩

/-- `expand(const std::array<double, D>& point)` (RSTTree.cpp:59-67):
componentwise `min`/`max` with the point. -/
def expandPoint (b : MinimumBoundingRegion R) (p : List R) : MinimumBoundingRegion R :=
  ⟨List.zipWith Min.min b.min p, List.zipWith Max.max b.max p⟩

/-- `expand(const MinimumBoundingRegion& region)` (RSTTree.cpp:49-57):
componentwise union of two boxes. -/
def expandBox (b c : MinimumBoundingRegion R) : MinimumBoundingRegion R :=
  ⟨List.zipWith Min.min b.min c.min, List.zipWith Max.max b.max c.max⟩

/-- `area()` (RSTTree.cpp:24-30): product of side lengths. -/
def area (b : MinimumBoundingRegion R) : R :=
  (List.zipWith (fun hi lo => hi - lo) b.max b.min).foldl (· * ·) 1

end MinimumBoundingRegion

/-- `expand` by a point on a possibly default-constructed region
(`none` models the all-infinite empty box). -/
def expandPointO : Option (MinimumBoundingRegion R) → List R → Option (MinimumBoundingRegion R)
  | none, p => some (.ofPoint p)
  | some b, p => some (b.expandPoint p)

/-- `expand` by a (finite) box on a possibly default-constructed region. -/
def expandBoxO : Option (MinimumBoundingRegion R) → MinimumBoundingRegion R →
    Option (MinimumBoundingRegion R)
  | none, c => some c
  | some b, c => some (b.expandBox c)

/-- `point_to_box_distance_squared` (RSTTree.cpp:73-83): per axis, the squared
gap to the nearer face when the point lies outside, 0 when inside. -/
def point_to_box_distance_squared (p : List R) (box : MinimumBoundingRegion R) : R :=
  (List.zipWith (fun x lohi =>
      if x < lohi.1 then (lohi.1 - x) * (lohi.1 - x)
      else if x > lohi.2 then (x - lohi.2) * (x - lohi.2)
      else 0)
    p (box.min.zip box.max)).foldl (· + ·) 0

/-- The leaf query metric (RSTTree.cpp:319-324): squared distance from `key` to
the entry region's `min` array (`diff = key[j] - subregions[i]->min[j]`,
summed over the axes; the region is treated as a point). -/
def distToMin (key : List R) (b : MinimumBoundingRegion R) : R :=
  (List.zipWith (fun x y => (x - y) * (x - y)) key b.min).foldl (· + ·) 0

/-- `compute_overlap` (RSTTree.cpp:95-106): product of the per-axis overlap
extents, 0 as soon as some axis has extent `≤ 0`. -/
def compute_overlap (A B : MinimumBoundingRegion R) : R :=
  let axisExtents := List.zipWith
    (fun a b => Min.min a.2 b.2 - Max.max a.1 b.1) (A.min.zip A.max) (B.min.zip B.max)
  if axisExtents.any (fun o => decide (o ≤ 0)) then 0 else axisExtents.foldl (· * ·) 1

/-- `compute_margin` (RSTTree.cpp:108-114): twice the summed side lengths of the
two boxes. -/
def compute_margin (A B : MinimumBoundingRegion R) : R :=
  2 * ((List.zipWith (fun a b => (a.2 - a.1) + (b.2 - b.1))
    (A.min.zip A.max) (B.min.zip B.max)).foldl (· + ·) 0)

/-- `compute_area` (RSTTree.cpp:116-120): sum of the two areas. -/
def compute_area (A B : MinimumBoundingRegion R) : R := A.area + B.area

/-- `SplitTracker` (RSTTree.h:91-100); `overlap`, `margin`, `area` start at
`inf`, modelled as `⊤`. -/
structure SplitTracker (R : Type) where
  axis : ℕ := 0
  location : ℕ := 0
  overlap : WithTop R := ⊤
  margin : WithTop R := ⊤
  area : WithTop R := ⊤
deriving Repr

/-- `SplitTracker::update` (RSTTree.cpp:85-93). -/
def SplitTracker.update (_t : SplitTracker R) (axis location : ℕ) (o m a : R) :
    SplitTracker R :=
  ⟨axis, location, (o : WithTop R), (m : WithTop R), (a : WithTop R)⟩

/-- `MIN_SPLIT_COUNT` (RSTTree.h:149-150): `max(⌊0.25 · N⌋, 1)`; both node kinds
compute it from the internal capacity parameter `N`. -/
def MIN_SPLIT_COUNT (N : ℕ) : ℕ := Max.max (N / 4) 1

/-- `SplitEntry` (RSTTree.h:84-89). -/
structure SplitEntry (R V : Type) where
  region : MinimumBoundingRegion R
  value : V
deriving Repr, DecidableEq

/-- The `std::sort` calls over split entries, comparing `region.min[axis]`
(RSTTree.cpp:193-197, 279-283, 442-446); modelled as a stable insertion sort
on the non-strict comparison, one refinement of the unspecified tie order of
`std::sort` on the strict one.  A `min` array shorter than the axis index
reads as 0 (out of range in the source; unreachable at the use sites). -/
def sortByAxis (axis : ℕ) (es : List (SplitEntry R V)) : List (SplitEntry R V) :=
  es.insertionSort (fun a b => a.region.min.getD axis 0 ≤ b.region.min.getD axis 0)

/-- Union of a list of regions, as built by expanding a default-constructed
(empty) region with each box in turn (RSTTree.cpp:201-203); the empty list
(unreachable: both sides of every candidate split are nonempty) is modelled by
the dimensionless box. -/
def unionBoxes : List (MinimumBoundingRegion R) → MinimumBoundingRegion R
  | [] => ⟨[], []⟩
  | b :: bs => bs.foldl MinimumBoundingRegion.expandBox b

/-- The split positions evaluated by `find_best_split` (RSTTree.cpp:199):
`for (size_t k = MIN_SPLIT_COUNT; k < L + 1 - MIN_SPLIT_COUNT; ++k)` — the
upper bound is exclusive. -/
def splitPositions (L m : ℕ) : List ℕ := List.range' m (L + 1 - m - m)

/-- One candidate inspection of `find_best_split` (RSTTree.cpp:205-224): a
strictly greater overlap is skipped; a strictly smaller overlap, or an equal
overlap with strictly smaller margin, or an equal overlap with a not-smaller
margin but strictly smaller area, replaces the tracker. -/
def considerCandidate (axis k : ℕ) (lower upper : MinimumBoundingRegion R)
    (t : SplitTracker R) : SplitTracker R :=
  let o := compute_overlap lower upper
  if (o : WithTop R) > t.overlap then t
  else
    let m := compute_margin lower upper
    let a := compute_area lower upper
    if (o : WithTop R) < t.overlap then t.update axis k o m a
    else if (m : WithTop R) < t.margin then t.update axis k o m a
    else if (a : WithTop R) < t.area then t.update axis k o m a
    else t

/-- The candidate splits `find_best_split` evaluates, in scan order, with the
cost triple computed for each: for every axis in `[0, D)` the entries are
sorted by `region.min[axis]` (the sorted state carrying over to the next
axis, as in the source's in-place sorts) and every position of
`splitPositions` yields the candidate
`(axis, k, overlap, margin, area)` of the two side unions. -/
def splitCandidates (D N L : ℕ) (entries : List (SplitEntry R V)) :
    List (ℕ × ℕ × R × R × R) :=
  ((List.range D).foldl (fun st axis =>
    let sorted := sortByAxis axis st.1
    (sorted, st.2 ++ (splitPositions L (MIN_SPLIT_COUNT N)).map (fun k =>
      let lower := unionBoxes ((sorted.take k).map SplitEntry.region)
      let upper := unionBoxes ((sorted.drop k).map SplitEntry.region)
      (axis, k, compute_overlap lower upper, compute_margin lower upper,
        compute_area lower upper)))) (entries, [])).2

/-- `RSTLeafNode` (RSTTree.h:146-190): up to `L` (region, payload) slot pairs,
the first `size` engaged. -/
structure RSTLeafNode (R S : Type) where
  size : ℕ
  region : Option (MinimumBoundingRegion R)
  subregions : List (Option (MinimumBoundingRegion R))
  children : List (Option S)
deriving Repr

/-- `RSTInternalNode` (RSTTree.h:199-233) with child type `α`: up to `N`
(region, child-pointer) slot pairs. -/
structure RSTInternalNode (R α : Type) where
  size : ℕ
  region : Option (MinimumBoundingRegion R)
  subregions : List (Option (MinimumBoundingRegion R))
  children : List (Option α)
deriving Repr

/-- `RSTNode` (RSTTree.h:71-72), the leaf/internal variant, stratified by
height: every tree the source's `insert` builds keeps each internal child
exactly one level below its parent. -/
@[reducible] def RSTNode (R S : Type) : ℕ → Type
  | 0 => RSTLeafNode R S
  | h + 1 => RSTInternalNode R (RSTNode R S h)

namespace RSTLeafNode

/-- `RSTLeafNode::pack_entries` (RSTTree.cpp:169-185): loop the first `N` slot
pairs into split entries, failing with the "Corrupt node" invariant error when
a subregion or payload slot is disengaged, then append the degenerate box of
the incoming key. -/
def pack_entries (N : ℕ) (subregions : List (Option (MinimumBoundingRegion R)))
    (children : List (Option S)) (key : List R) (value : S) :
    Except String (List (SplitEntry R S)) := do
  let packed ← (List.range N).foldlM (fun acc i =>
    match subregions.getD i none, children.getD i none with
    | some r, some c => Except.ok (acc ++ [⟨r, c⟩])
    | _, _ => Except.error "Corrupt node: missing subregion/child...") []
  Except.ok (packed ++ [⟨MinimumBoundingRegion.ofPoint key, value⟩])

/-- `RSTLeafNode::find_best_split` (RSTTree.cpp:187-231), generic in the entry
payload exactly as the source instantiates it for both payload kinds: for each
axis sort the entries by `region.min[axis]` (in place — the sorted state
carries over to the next axis and is returned), scan the split positions
`k ∈ [m, L+1−m)` with `m = MIN_SPLIT_COUNT N`, track the preferred candidate
with `considerCandidate`, and fail when no candidate was recorded. -/
def find_best_split (D N L : ℕ) (entries : List (SplitEntry R V)) :
    Except String (SplitTracker R × List (SplitEntry R V)) :=
  let res := (List.range D).foldl (fun st axis =>
    let sorted := sortByAxis axis st.1
    let tr := (splitPositions L (MIN_SPLIT_COUNT N)).foldl (fun t k =>
      considerCandidate axis k (unionBoxes ((sorted.take k).map SplitEntry.region))
        (unionBoxes ((sorted.drop k).map SplitEntry.region)) t) st.2
    (sorted, tr)) (entries, {})
  if res.2.overlap = ⊤ then Except.error "Could not find a valid split."
  else Except.ok (res.2, res.1)

end RSTLeafNode

/-- Slot array of capacity `cap` holding the given engaged prefix: the source
writes split halves into value-initialised temporaries slot by slot
(RSTTree.cpp:244-255); both halves have at most `cap` entries, so the node
keeps the engaged prefix padded with disengaged slots. -/
def padSlots (cap : ℕ) (l : List (Option α)) : List (Option α) :=
  l ++ List.replicate (cap - l.length) none

namespace RSTLeafNode

/-- `RSTLeafNode::partition_entries` (RSTTree.cpp:233-256): split the sorted
entries at `split_index` into the two covering boxes and the two slot-array
pairs. -/
def partition_entries (L : ℕ) (sorted : List (SplitEntry R S)) (split_index : ℕ) :
    (MinimumBoundingRegion R × MinimumBoundingRegion R) ×
    (List (Option (MinimumBoundingRegion R)) × List (Option S)) ×
    (List (Option (MinimumBoundingRegion R)) × List (Option S)) :=
  let lowerEs := sorted.take split_index
  let upperEs := sorted.drop split_index
  ((unionBoxes (lowerEs.map SplitEntry.region), unionBoxes (upperEs.map SplitEntry.region)),
   (padSlots L (lowerEs.map (fun e => some e.region)),
    padSlots L (lowerEs.map (fun e => some e.value))),
   (padSlots L (upperEs.map (fun e => some e.region)),
    padSlots L (upperEs.map (fun e => some e.value))))

/-- `RSTLeafNode::insert` (RSTTree.cpp:263-306).  Absorbing path
(`!is_full()`): write slot `size`, expand the node region by the key, grow
`size`.  Overflow path: pack the `N+1` split entries, choose the split, re-sort
by the chosen axis, partition at the chosen position; the node becomes the
lower half and the upper half is returned as the new sibling together with its
region. -/
def insert (D N L : ℕ) (l : RSTLeafNode R S) (key : List R) (value : S) :
    Except String (RSTLeafNode R S × Option (MinimumBoundingRegion R × RSTLeafNode R S)) :=
  if l.size ≠ L then
    let absorbed : RSTLeafNode R S :=
      { size := l.size + 1
        region := expandPointO l.region key
        subregions := l.subregions.set l.size (some (.ofPoint key))
        children := l.children.set l.size (some value) }
    Except.ok (absorbed, none)
  else do
    let entries ← pack_entries N l.subregions l.children key value
    let (best, entries₁) ← find_best_split D N L entries
    let sorted := sortByAxis best.axis entries₁
    let p := partition_entries L sorted best.location
    let lowerNode : RSTLeafNode R S :=
      { size := best.location
        region := some p.1.1
        subregions := p.2.1.1
        children := p.2.1.2 }
    let sibling : RSTLeafNode R S :=
      { size := L + 1 - best.location
        region := some p.1.2
        subregions := p.2.2.1
        children := p.2.2.2 }
    Except.ok (lowerNode, some (p.1.2, sibling))

end RSTLeafNode

/-- The comparison of the result heap entries: `std::pair<double, S>`
compares lexicographically. -/
def pairLe [LinearOrder S] (a b : R × S) : Prop := a.1 < b.1 ∨ (a.1 = b.1 ∧ a.2 ≤ b.2)

instance [LinearOrder S] : DecidableRel (pairLe (R := R) (S := S)) := fun _ _ => by
  unfold pairLe; infer_instance

/-- Push onto the bounded max-heap `MaxHeap<S> = std::priority_queue<std::pair<double, S>>`,
modelled as a list sorted descending in the pair order (the head is `top()`). -/
def heapPush [LinearOrder S] (x : R × S) : List (R × S) → List (R × S)
  | [] => [x]
  | y :: ys => if pairLe x y then y :: heapPush x ys else x :: y :: ys

/-- One candidate update of the bounded result heap (RSTTree.cpp:326-334):
push while fewer than `k` entries are held, otherwise replace the top when the
candidate is strictly closer; `top()` on an empty heap (reached when `k = 0`)
is undefined in the source and surfaces as an error. -/
def queryStep [LinearOrder S] (k : ℕ) (result : List (R × S)) (cand : R × S) :
    Except String (List (R × S)) :=
  if result.length < k then Except.ok (heapPush cand result)
  else
    match result with
    | [] => Except.error "top() on empty result heap"
    | top :: rest => Except.ok (if cand.1 < top.1 then heapPush cand rest else top :: rest)

namespace RSTLeafNode

/-- `RSTLeafNode::query` (RSTTree.cpp:308-336): walk the first `size` slots,
skip a disengaged payload slot and any payload rejected by the filter, and feed
the squared distance to the entry's stored point into the result heap.  The
source dereferences `subregions[i]` without an engagement test (undefined when
disengaged while the payload is engaged); that unreachable read is modelled by
the dimensionless box. -/
def query [LinearOrder S] (l : RSTLeafNode R S) (key : List R) (k : ℕ)
    (result : List (R × S)) (filter : S → Bool) : Except String (List (R × S)) :=
  (List.range l.size).foldlM (fun res i =>
    match l.children.getD i none with
    | none => Except.ok res
    | some v =>
      if filter v then
        queryStep k res (distToMin key ((l.subregions.getD i none).getD ⟨[], []⟩), v)
      else Except.ok res) result

end RSTLeafNode

namespace RSTInternalNode

/-- `RSTInternalNode::find_best_child_insertion` (RSTTree.cpp:383-408): over
the first `size` slots (skipping disengaged subregions), pick the index of
least area enlargement towards the key box, ties broken by smaller original
area, both trackers starting at `inf`; strict comparisons leave the earliest
winner in place. -/
def find_best_child_insertion (n : RSTInternalNode R α)
    (key_mbr : MinimumBoundingRegion R) : ℕ :=
  ((List.range n.size).foldl (fun st i =>
    match n.subregions.getD i none with
    | none => st
    | some current =>
      let original_area := current.area
      let expanded := current.expandBox key_mbr
      let enlargement := expanded.area - original_area
      if (enlargement : WithTop R) < st.2.1 ∨
         ((enlargement : WithTop R) = st.2.1 ∧ (original_area : WithTop R) < st.2.2)
      then (i, ((enlargement : WithTop R), (original_area : WithTop R))) else st)
    (0, (⊤, ⊤))).1

/-- `RSTInternalNode::pack_entries` (RSTTree.cpp:344-357).  Unlike the leaf
version it performs no corruption check: a null child pointer is packed as-is,
and a disengaged subregion is dereferenced by the source without any test —
undefined behaviour, surfaced here as an error so it cannot be mistaken for a
defined result (well-formed nodes never reach it).  The incoming sibling is
appended last. -/
def pack_entries (N : ℕ) (subregions : List (Option (MinimumBoundingRegion R)))
    (children : List (Option α)) (new_mbr : MinimumBoundingRegion R) (new_child : α) :
    Except String (List (SplitEntry R (Option α))) := do
  let packed ← (List.range N).foldlM (fun acc i =>
    match subregions.getD i none with
    | some r => Except.ok (acc ++ [⟨r, children.getD i none⟩])
    | none => Except.error "undefined: disengaged subregion dereferenced") []
  Except.ok (packed ++ [⟨new_mbr, some new_child⟩])

/-- `RSTInternalNode::partition_entries` (RSTTree.cpp:359-381): as the leaf
version, but the entry values are the (nullable) child pointers, stored in the
child slot arrays as-is. -/
def partition_entries (L : ℕ) (sorted : List (SplitEntry R (Option α))) (split_index : ℕ) :
    (MinimumBoundingRegion R × MinimumBoundingRegion R) ×
    (List (Option (MinimumBoundingRegion R)) × List (Option α)) ×
    (List (Option (MinimumBoundingRegion R)) × List (Option α)) :=
  let lowerEs := sorted.take split_index
  let upperEs := sorted.drop split_index
  ((unionBoxes (lowerEs.map SplitEntry.region), unionBoxes (upperEs.map SplitEntry.region)),
   (padSlots L (lowerEs.map (fun e => some e.region)),
    padSlots L (lowerEs.map SplitEntry.value)),
   (padSlots L (upperEs.map (fun e => some e.region)),
    padSlots L (upperEs.map SplitEntry.value)))

end RSTInternalNode

/-- `RSTNodeFN::insert` dispatch together with the two member `insert`s
(RSTTree.cpp:150-159, 263-306, 414-472), by height.  At an internal node:
choose the best child, recurse (the child is mutated in place in the source,
hence the `set` at `best_index`); when the child did not split, expand the
child's stored subregion and the node region by the key; when it split and the
node has room, install the sibling at slot `size`; otherwise pack the `N+1`
entries (the stored subregions, including the now-stale one of the split
child, paired with the current children), run the same split procedure as
leaves, and return the upper half as a fresh sibling.  Dereferencing a null
child pointer (unreachable on well-formed nodes) is undefined in the source
and surfaces as an error. -/
def RSTNode.insert [LinearOrder S] (D N L : ℕ) :
    (h : ℕ) → RSTNode R S h → List R → S →
    Except String (RSTNode R S h × Option (MinimumBoundingRegion R × RSTNode R S h))
  | 0, leaf, key, value => RSTLeafNode.insert D N L leaf key value
  | h + 1, n, key, value => do
    let key_mbr := MinimumBoundingRegion.ofPoint key
    let best_index := n.find_best_child_insertion key_mbr
    match n.children.getD best_index none with
    | none => Except.error "undefined: null child dereferenced"
    | some child => do
      let res ← RSTNode.insert D N L h child key value
      let children₁ := n.children.set best_index (some res.1)
      match res.2 with
      | none =>
        let absorbed : RSTInternalNode R (RSTNode R S h) :=
          { size := n.size
            region := expandPointO n.region key
            subregions := n.subregions.set best_index
              ((n.subregions.getD best_index none).map (·.expandPoint key))
            children := children₁ }
        Except.ok (absorbed, none)
      | some (new_region, sibling) =>
        if n.size ≠ N then
          let installed : RSTInternalNode R (RSTNode R S h) :=
            { size := n.size + 1
              region := expandBoxO n.region new_region
              subregions := n.subregions.set n.size (some new_region)
              children := children₁.set n.size (some sibling) }
          Except.ok (installed, none)
        else do
          let entries ← RSTInternalNode.pack_entries N n.subregions children₁ new_region sibling
          let (best, entries₁) ← RSTLeafNode.find_best_split D N L entries
          let sorted := sortByAxis best.axis entries₁
          let p := RSTInternalNode.partition_entries L sorted best.location
          let lowerNode : RSTInternalNode R (RSTNode R S h) :=
            { size := best.location
              region := some p.1.1
              subregions := p.2.1.1
              children := p.2.1.2 }
          let upperNode : RSTInternalNode R (RSTNode R S h) :=
            { size := L + 1 - best.location
              region := some p.1.2
              subregions := p.2.2.1
              children := p.2.2.2 }
          Except.ok (lowerNode, some (p.1.2, upperNode))

/-- The continuation of `RSTNode.insert` at an internal node after the chosen
child's recursive insert has returned (the tail of RSTTree.cpp:425-471):
absorb the grown child, install the split sibling when there is room, or split
this node.  Definitionally equal to the corresponding part of
`RSTNode.insert`; factored out so the three paths can be reasoned about
separately. -/
def RSTNode.insertRest [LinearOrder S] (D N L : ℕ) {h : ℕ}
    (n : RSTInternalNode R (RSTNode R S h)) (key : List R)
    (res : RSTNode R S h × Option (MinimumBoundingRegion R × RSTNode R S h)) :
    Except String (RSTNode R S (h + 1) ×
      Option (MinimumBoundingRegion R × RSTNode R S (h + 1))) :=
  let best_index := n.find_best_child_insertion (MinimumBoundingRegion.ofPoint key)
  let children₁ := n.children.set best_index (some res.1)
  match res.2 with
  | none =>
    let absorbed : RSTInternalNode R (RSTNode R S h) :=
      { size := n.size
        region := expandPointO n.region key
        subregions := n.subregions.set best_index
          ((n.subregions.getD best_index none).map (·.expandPoint key))
        children := children₁ }
    Except.ok (absorbed, none)
  | some (new_region, sibling) =>
    if n.size ≠ N then
      let installed : RSTInternalNode R (RSTNode R S h) :=
        { size := n.size + 1
          region := expandBoxO n.region new_region
          subregions := n.subregions.set n.size (some new_region)
          children := children₁.set n.size (some sibling) }
      Except.ok (installed, none)
    else do
      let entries ← RSTInternalNode.pack_entries N n.subregions children₁ new_region sibling
      let (best, entries₁) ← RSTLeafNode.find_best_split D N L entries
      let sorted := sortByAxis best.axis entries₁
      let p := RSTInternalNode.partition_entries L sorted best.location
      let lowerNode : RSTInternalNode R (RSTNode R S h) :=
        { size := best.location
          region := some p.1.1
          subregions := p.2.1.1
          children := p.2.1.2 }
      let upperNode : RSTInternalNode R (RSTNode R S h) :=
        { size := L + 1 - best.location
          region := some p.1.2
          subregions := p.2.2.1
          children := p.2.2.2 }
      Except.ok (lowerNode, some (p.1.2, upperNode))

/-- The `region` field of either node kind. -/
def RSTNode.region : (h : ℕ) → RSTNode R S h → Option (MinimumBoundingRegion R)
  | 0, l => RSTLeafNode.region l
  | _ + 1, n => RSTInternalNode.region n

/-- The `size` field of either node kind (`RSTNodeFN::get_size`). -/
def RSTNode.size : (h : ℕ) → RSTNode R S h → ℕ
  | 0, l => RSTLeafNode.size l
  | _ + 1, n => RSTInternalNode.size n

@[simp] lemma RSTNode.size_zero (l : RSTLeafNode R S) :
    RSTNode.size 0 l = l.size := rfl

@[simp] lemma RSTNode.size_succ {h : ℕ} (n : RSTInternalNode R (RSTNode R S h)) :
    RSTNode.size (h + 1) n = n.size := rfl

/-- `RSTNode::query` dispatch together with the two member `query`s
(RSTTree.cpp:308-336, 474-502).  An internal node pushes `(box distance, i)`
for each engaged subregion slot into a local min-priority queue and visits the
children in ascending popped order (the queue on `std::pair<double, size_t>`
pops lexicographically smallest first), skipping null child slots; no child is
pruned. -/
def RSTNode.query [LinearOrder S] : (h : ℕ) → RSTNode R S h → List R → ℕ →
    List (R × S) → (S → Bool) → Except String (List (R × S))
  | 0, leaf, key, k, result, filter => RSTLeafNode.query leaf key k result filter
  | h + 1, n, key, k, result, filter =>
    let pq := (List.range n.size).filterMap (fun i =>
      (n.subregions.getD i none).map (fun b => (point_to_box_distance_squared key b, i)))
    let sortedPQ := pq.insertionSort (fun a b =>
      a.1 < b.1 ∨ (a.1 = b.1 ∧ a.2 ≤ b.2))
    sortedPQ.foldlM (fun res di =>
      match n.children.getD di.2 none with
      | none => Except.ok res
      | some child => RSTNode.query h child key k res filter) result

/-- `RSTTree` (RSTTree.h:242-254): an optional root of some height. -/
def RSTTree (R S : Type) : Type := Option ((h : ℕ) × RSTNode R S h)

/-- `RSTTree::insert` (RSTTree.cpp:509-550): an empty tree gets a singleton
leaf root; otherwise delegate to the root, and on a root split promote a new
internal root holding the old root and the returned sibling, its region the
union of their two subregions. -/
def RSTTree.insert [LinearOrder S] (D N L : ℕ) (t : RSTTree R S) (key : List R)
    (value : S) : Except String (RSTTree R S) :=
  match t with
  | none =>
    let leaf : RSTLeafNode R S :=
      { size := 1
        region := expandPointO none key
        subregions := (List.replicate L none).set 0 (some (.ofPoint key))
        children := (List.replicate L none).set 0 (some value) }
    Except.ok (some ⟨0, leaf⟩)
  | some ⟨h, root⟩ => do
    let res ← RSTNode.insert D N L h root key value
    match res.2 with
    | none => Except.ok (some ⟨h, res.1⟩)
    | some (new_region, sibling) =>
      let new_root : RSTInternalNode R (RSTNode R S h) :=
        { size := 2
          region := expandBoxO (RSTNode.region h res.1) new_region
          subregions := ((List.replicate N none).set 0 (RSTNode.region h res.1)).set 1
            (some new_region)
          children := ((List.replicate N (none : Option (RSTNode R S h))).set 0
            (some res.1)).set 1 (some sibling) }
      Except.ok (some ⟨h + 1, new_root⟩)

/-- The continuation of `RSTTree.insert` on a non-empty tree after the root
insert has returned (RSTTree.cpp:527-549): keep the root, or promote a new
internal root over the old root and the returned sibling.  Definitionally
equal to the corresponding part of `RSTTree.insert`. -/
def RSTTree.insertRest (N : ℕ) {h : ℕ}
    (res : RSTNode R S h × Option (MinimumBoundingRegion R × RSTNode R S h)) :
    Except String (RSTTree R S) :=
  match res.2 with
  | none => Except.ok (some ⟨h, res.1⟩)
  | some (new_region, sibling) =>
    let new_root : RSTInternalNode R (RSTNode R S h) :=
      { size := 2
        region := expandBoxO (RSTNode.region h res.1) new_region
        subregions := ((List.replicate N none).set 0 (RSTNode.region h res.1)).set 1
          (some new_region)
        children := ((List.replicate N (none : Option (RSTNode R S h))).set 0
          (some res.1)).set 1 (some sibling) }
    Except.ok (some ⟨h + 1, new_root⟩)

/-- `RSTTree::query_with_filter` (RSTTree.cpp:558-581): empty tree returns the
empty sequence; otherwise run the root query into a fresh result heap, unload
it (descending) and reverse to ascending order of payloads. -/
def RSTTree.query_with_filter [LinearOrder S] (t : RSTTree R S) (key : List R)
    (max : ℕ) (filter : S → Bool) : Except String (List S) :=
  match t with
  | none => Except.ok []
  | some ⟨h, root⟩ => do
    let result ← RSTNode.query h root key max [] filter
    Except.ok ((result.map Prod.snd).reverse)

/-- A tree built by the given insertions, starting empty. -/
def buildTree [LinearOrder S] (D N L : ℕ) (ops : List (List R × S)) :
    Except String (RSTTree R S) :=
  ops.foldlM (fun t op => RSTTree.insert D N L t op.1 op.2) none

/-- Exhaustive traversal: the (region, payload) pairs stored in the engaged
slots of the first `size` entries of every leaf reachable from the node (a
slot pair with either side disengaged, unreachable in well-formed trees, is
skipped). -/
def RSTNode.entriesList : (h : ℕ) → RSTNode R S h → List (MinimumBoundingRegion R × S)
  | 0, l => (List.range l.size).filterMap (fun i =>
      match l.subregions.getD i none, l.children.getD i none with
      | some b, some v => some (b, v)
      | _, _ => none)
  | h + 1, n => (List.range n.size).flatMap (fun i =>
      match n.children.getD i none with
      | some child => RSTNode.entriesList h child
      | none => [])

/-- The multiset of payloads reachable by exhaustive traversal from the root. -/
def RSTTree.payloads (t : RSTTree R S) : Multiset S :=
  match t with
  | none => 0
  | some ⟨h, root⟩ => ((RSTNode.entriesList h root).map Prod.snd : List S)

/-- The multiset of (region, payload) entries reachable from the root. -/
def RSTTree.entries (t : RSTTree R S) : Multiset (MinimumBoundingRegion R × S) :=
  match t with
  | none => 0
  | some ⟨h, root⟩ => (RSTNode.entriesList h root : List _)

/-- Structural well-formedness maintained by `insert`: slot arrays have the
node's capacity, `size` is within capacity (and positive for internal nodes),
and the first `size` slots are all engaged, recursively. -/
def RSTNode.WF (N L : ℕ) : (h : ℕ) → RSTNode R S h → Bool
  | 0, l =>
    l.size ≤ L && l.subregions.length = L && l.children.length = L &&
    (List.range l.size).all (fun i =>
      (l.subregions.getD i none).isSome && (l.children.getD i none).isSome)
  | h + 1, n =>
    1 ≤ n.size && n.size ≤ N && n.subregions.length = N && n.children.length = N &&
    (List.range n.size).all (fun i =>
      (n.subregions.getD i none).isSome &&
      match n.children.getD i none with
      | some child => RSTNode.WF N L h child
      | none => false)

/-- Well-formedness of a whole tree. -/
def RSTTree.WF (N L : ℕ) (t : RSTTree R S) : Bool :=
  match t with
  | none => true
  | some ⟨h, root⟩ => RSTNode.WF N L h root

/-- Every node size within its capacity (`L` for leaves, `N` for internal
nodes), recursively; disengaged child slots are skipped. -/
def RSTNode.sizesWithinCapacity (N L : ℕ) : (h : ℕ) → RSTNode R S h → Bool
  | 0, l => l.size ≤ L
  | h + 1, n =>
    n.size ≤ N && (List.range n.size).all (fun i =>
      match n.children.getD i none with
      | some child => RSTNode.sizesWithinCapacity N L h child
      | none => true)

/-- Every node size within capacity, over the whole tree. -/
def RSTTree.sizesWithinCapacity (N L : ℕ) (t : RSTTree R S) : Bool :=
  match t with
  | none => true
  | some ⟨h, root⟩ => RSTNode.sizesWithinCapacity N L h root

/-- The union of the entry regions a node stores (its first `size` subregion
slots), the quantity the claimed containment invariant compares each parent
slot against; `none` when no engaged slot exists. -/
def RSTNode.entryUnion : (h : ℕ) → RSTNode R S h → Option (MinimumBoundingRegion R)
  | 0, l => ((List.range l.size).filterMap (fun i => l.subregions.getD i none)).foldl
      (fun acc b => expandBoxO acc b) none
  | _ + 1, n => ((List.range n.size).filterMap (fun i => n.subregions.getD i none)).foldl
      (fun acc b => expandBoxO acc b) none

/-- The containment invariant: for every internal entry, the stored subregion
slot equals the union of the child's entry regions, recursively. -/
def RSTNode.regionsExact [DecidableEq R] : (h : ℕ) → RSTNode R S h → Bool
  | 0, _ => true
  | h + 1, n => (List.range n.size).all (fun i =>
      match n.children.getD i none with
      | some child =>
        decide (n.subregions.getD i none = RSTNode.entryUnion h child) &&
        RSTNode.regionsExact h child
      | none => false)

/-- The containment invariant over the whole tree. -/
def RSTTree.regionsExact [DecidableEq R] (t : RSTTree R S) : Bool :=
  match t with
  | none => true
  | some ⟨h, root⟩ => RSTNode.regionsExact h root

/-- The containment invariant, evaluated on the result of a tree computation
(trivially true on an error outcome). -/
def regionsExactAfter [DecidableEq R] (t : Except String (RSTTree R S)) : Bool :=
  match t with
  | Except.ok t => RSTTree.regionsExact t
  | Except.error _ => true

/-- The insertion of `key` reaches only non-full nodes: the recursion of
`insert` descends into `find_best_child_insertion`'s pick and triggers no
split exactly when the leaf it reaches has room. -/
def RSTNode.noSplitPath (L : ℕ) : (h : ℕ) → RSTNode R S h → List R → Bool
  | 0, l, _ => decide (l.size ≠ L)
  | h + 1, n, key =>
    match n.children.getD (n.find_best_child_insertion (.ofPoint key)) none with
    | some child => RSTNode.noSplitPath L h child key
    | none => false

/-- The candidates a query feeds into the result heap, in traversal order:
leaf entries passing the filter paired with their stored-point distance,
children visited in ascending box-distance order. -/
def RSTNode.candList [LinearOrder S] : (h : ℕ) → RSTNode R S h → List R → (S → Bool) →
    List (R × S)
  | 0, l, key, filter => (List.range l.size).filterMap (fun i =>
      match l.children.getD i none with
      | none => none
      | some v =>
        if filter v then
          some (distToMin key ((l.subregions.getD i none).getD ⟨[], []⟩), v)
        else none)
  | h + 1, n, key, filter =>
    let pq := (List.range n.size).filterMap (fun i =>
      (n.subregions.getD i none).map (fun b => (point_to_box_distance_squared key b, i)))
    let sortedPQ := pq.insertionSort (fun a b =>
      a.1 < b.1 ∨ (a.1 = b.1 ∧ a.2 ≤ b.2))
    sortedPQ.flatMap (fun di =>
      match n.children.getD di.2 none with
      | none => []
      | some child => RSTNode.candList h child key filter)

/-- The squared Euclidean distance between two points, the metric a leaf
entry's stored point is ranked by (`distToMin` applied to a degenerate box). -/
def pointDistSq (key p : List R) : R :=
  (List.zipWith (fun x y => (x - y) * (x - y)) key p).foldl (· + ·) 0

/-- Modelled from the spec: the scaled squared distance
`Σ (scale[i] · (key[i] − point[i]))²` that the spec's `query_with_filter`
signature ranks by; the source's query member functions take no scale
parameter, so this exists only to state the claim. -/
def scaledDistSq (scale key p : List R) : R :=
  (List.zipWith (fun s d => (s * d) * (s * d)) scale
    (List.zipWith (fun a b => a - b) key p)).foldl (· + ·) 0

/-- The filter-passing inserted points, paired with their distance under the
given metric, in insertion order. -/
def filterCandidates (filter : S → Bool) (metric : List R → R)
    (ops : List (List R × S)) : List (R × S) :=
  (ops.filter (fun e => filter e.2)).map (fun e => (metric e.1, e.2))

/-- The top-`k` characterisation of a query result `out` against a candidate
multiset `cands` of (distance, payload) pairs: some selection realises `out`,
is weakly ascending in distance, has `min k |cands|` elements, and no
unselected candidate is strictly closer than any selected one. -/
def IsTopK [LinearOrder S] (k : ℕ) (cands : Multiset (R × S)) (out : List S) : Prop :=
  ∃ sel : List (R × S),
    out = sel.map Prod.snd ∧
    List.Sorted (fun a b : R × S => a.1 ≤ b.1) sel ∧
    sel.length = Min.min k (Multiset.card cands) ∧
    ∃ excl, cands = ↑sel + excl ∧ ∀ c ∈ excl, ∀ x ∈ sel, x.1 ≤ c.1

section HeapLemmas

variable [LinearOrder S]

lemma pairLe_total (a b : R × S) : pairLe a b ∨ pairLe b a := by
  rcases lt_trichotomy a.1 b.1 with h | h | h
  · exact Or.inl (Or.inl h)
  · rcases le_total a.2 b.2 with h2 | h2
    · exact Or.inl (Or.inr ⟨h, h2⟩)
    · exact Or.inr (Or.inr ⟨h.symm, h2⟩)
  · exact Or.inr (Or.inl h)

lemma pairLe_trans {a b c : R × S} (h1 : pairLe a b) (h2 : pairLe b c) : pairLe a c := by
  rcases h1 with h1 | ⟨h1, h1'⟩ <;> rcases h2 with h2 | ⟨h2, h2'⟩
  · exact Or.inl (h1.trans h2)
  · exact Or.inl (h2 ▸ h1)
  · exact Or.inl (h1 ▸ h2)
  · exact Or.inr ⟨h1.trans h2, h1'.trans h2'⟩

lemma pairLe_fst {a b : R × S} (h : pairLe a b) : a.1 ≤ b.1 := by
  rcases h with h | ⟨h, _⟩
  · exact h.le
  · exact h.le

/-- A result heap is a list sorted descending in the pair order. -/
def heapSorted (l : List (R × S)) : Prop := List.Sorted (fun a b : R × S => pairLe b a) l

lemma heapPush_perm (x : R × S) (l : List (R × S)) : (heapPush x l).Perm (x :: l) := by
  induction l with
  | nil => simp [heapPush]
  | cons y ys ih =>
    by_cases h : pairLe x y
    · simpa [heapPush, h] using ((ih.cons y).trans (List.Perm.swap x y ys))
    · simp [heapPush, h]

lemma length_heapPush (x : R × S) (l : List (R × S)) :
    (heapPush x l).length = l.length + 1 := by
  simpa using (heapPush_perm x l).length_eq

lemma mem_heapPush {x y : R × S} {l : List (R × S)} :
    y ∈ heapPush x l ↔ y = x ∨ y ∈ l := by
  rw [(heapPush_perm x l).mem_iff]; simp

lemma heapSorted_heapPush {x : R × S} {l : List (R × S)} (hl : heapSorted l) :
    heapSorted (heapPush x l) := by
  induction l with
  | nil => simp [heapPush, heapSorted]
  | cons y ys ih =>
    rw [heapSorted, List.sorted_cons] at hl
    obtain ⟨hy, hys⟩ := hl
    by_cases h : pairLe x y
    · rw [heapPush, if_pos h, heapSorted, List.sorted_cons]
      refine ⟨?_, ih hys⟩
      intro z hz
      rcases mem_heapPush.mp hz with rfl | hz
      · exact h
      · exact hy z hz
    · rw [heapPush, if_neg h, heapSorted, List.sorted_cons]
      rcases pairLe_total x y with hxy | hyx
      · exact absurd hxy h
      · refine ⟨?_, ?_⟩
        · intro z hz
          rcases List.mem_cons.mp hz with rfl | hz
          · exact hyx
          · exact pairLe_trans (hy z hz) hyx
        · rw [List.sorted_cons]; exact ⟨hy, hys⟩

lemma heapSorted_head_fst {t : R × S} {rest : List (R × S)}
    (h : heapSorted (t :: rest)) {x : R × S} (hx : x ∈ t :: rest) : x.1 ≤ t.1 := by
  rcases List.mem_cons.mp hx with rfl | hx
  · exact le_rfl
  · rw [heapSorted, List.sorted_cons] at h
    exact pairLe_fst (h.1 x hx)

/-- The invariant the bounded result heap maintains while scanning candidates:
sorted descending, of length `min k (#processed)`, holding a subset of the
processed candidates no worse than every unheld one. -/
def heapInv (k : ℕ) (processed : Multiset (R × S)) (heap : List (R × S)) : Prop :=
  heapSorted heap ∧ heap.length = Min.min k (Multiset.card processed) ∧
  ∃ excl, processed = ↑heap + excl ∧ ∀ c ∈ excl, ∀ x ∈ heap, x.1 ≤ c.1

lemma heapInv_empty (k : ℕ) : heapInv (R := R) (S := S) k 0 [] := by
  refine ⟨List.sorted_nil, by simp, 0, by simp, by simp⟩

lemma queryStep_inv {k : ℕ} (hk : 1 ≤ k) {P : Multiset (R × S)} {heap : List (R × S)}
    (hinv : heapInv k P heap) (c : R × S) :
    ∃ h', queryStep k heap c = Except.ok h' ∧ heapInv k (c ::ₘ P) h' := by
  obtain ⟨hsort, hlen, excl, hP, hdom⟩ := hinv
  by_cases hfull : heap.length < k
  · -- room: push
    have hn : Multiset.card P < k := by
      rcases le_or_lt k (Multiset.card P) with h | h
      · rw [Nat.min_eq_left h] at hlen; omega
      · exact h
    have hlen' : heap.length = Multiset.card P := by
      rwa [Nat.min_eq_right hn.le] at hlen
    have hexcl0 : excl = 0 := by
      refine Multiset.card_eq_zero.mp ?_
      have hc2 : Multiset.card P = heap.length + Multiset.card excl := by
        rw [hP, Multiset.card_add]; simp
      omega
    subst hexcl0
    refine ⟨heapPush c heap, by simp [queryStep, hfull],
      heapSorted_heapPush hsort, ?_, 0, ?_, by simp⟩
    · rw [length_heapPush, Multiset.card_cons, Nat.min_eq_right (by omega)]
      omega
    · rw [add_zero] at hP
      have h1 : (↑(heapPush c heap) : Multiset (R × S)) = ↑(c :: heap) :=
        Multiset.coe_eq_coe.mpr (heapPush_perm c heap)
      rw [add_zero, h1, ← Multiset.cons_coe, hP]
  · -- heap already holds k entries
    push_neg at hfull
    have hkn : k ≤ Multiset.card P := by
      by_contra h
      push_neg at h
      rw [Nat.min_eq_right h.le] at hlen
      omega
    have hlenk : heap.length = k := by
      rwa [Nat.min_eq_left hkn] at hlen
    obtain ⟨t, rest, rfl⟩ : ∃ t rest, heap = t :: rest := by
      cases heap with
      | nil => exact absurd hlenk (by simp; omega)
      | cons t rest => exact ⟨t, rest, rfl⟩
    have hstep : queryStep k (t :: rest) c =
        Except.ok (if c.1 < t.1 then heapPush c rest else t :: rest) := by
      rw [queryStep, if_neg (by omega)]
    by_cases hc : c.1 < t.1
    · -- evict the top
      rw [if_pos hc] at hstep
      refine ⟨heapPush c rest, hstep, ?_, ?_, t ::ₘ excl, ?_, ?_⟩
      · exact heapSorted_heapPush ((List.sorted_cons.mp hsort).2)
      · rw [length_heapPush, Multiset.card_cons, Nat.min_eq_left (by omega)]
        simpa using hlenk
      · have h1 : (↑(heapPush c rest) : Multiset (R × S)) = ↑(c :: rest) :=
          Multiset.coe_eq_coe.mpr (heapPush_perm c rest)
        rw [h1, ← Multiset.cons_coe, hP, ← Multiset.cons_coe]
        simp only [Multiset.cons_add, Multiset.add_cons]
        rw [Multiset.cons_swap]
      · intro c' hc' x hx
        have hx' : x = c ∨ x ∈ rest := mem_heapPush.mp hx
        rcases Multiset.mem_cons.mp hc' with rfl | hc'
        · rcases hx' with rfl | hx'
          · exact hc.le
          · exact heapSorted_head_fst hsort (List.mem_cons_of_mem _ hx')
        · rcases hx' with rfl | hx'
          · exact hc.le.trans (hdom c' hc' _ (List.mem_cons_self _ _))
          · exact hdom c' hc' x (List.mem_cons_of_mem _ hx')
    · -- candidate too far: it joins the excluded side
      rw [if_neg hc] at hstep
      refine ⟨t :: rest, hstep, hsort, ?_, c ::ₘ excl, ?_, ?_⟩
      · rw [Multiset.card_cons, Nat.min_eq_left (by omega)]
        exact hlenk
      · rw [hP, Multiset.add_cons]
      · intro c' hc' x hx
        rcases Multiset.mem_cons.mp hc' with rfl | hc'
        · exact (heapSorted_head_fst hsort hx).trans (not_lt.mp hc)
        · exact hdom c' hc' x hx

lemma foldlM_queryStep_inv {k : ℕ} (hk : 1 ≤ k) :
    ∀ (cands : List (R × S)) (heap : List (R × S)) (P : Multiset (R × S)),
      heapInv k P heap →
      ∃ out, cands.foldlM (queryStep k) heap = Except.ok out ∧
        heapInv k (P + (cands : Multiset (R × S))) out := by
  intro cands
  induction cands with
  | nil => intro heap P h; exact ⟨heap, rfl, by simpa using h⟩
  | cons c cs ih =>
    intro heap P h
    obtain ⟨h', hstep, hinv'⟩ := queryStep_inv hk h c
    obtain ⟨out, hfold, hinvout⟩ := ih h' (c ::ₘ P) hinv'
    refine ⟨out, ?_, ?_⟩
    · rw [List.foldlM_cons, hstep]
      exact hfold
    · have heq : c ::ₘ P + (cs : Multiset (R × S)) =
          P + ((c :: cs : List (R × S)) : Multiset (R × S)) := by
        rw [← Multiset.cons_coe, Multiset.cons_add, Multiset.add_cons]
      rwa [heq] at hinvout

end HeapLemmas

section QueryFold

variable [LinearOrder S]

lemma foldlM_of_filterMap {β : Type} {k : ℕ} (f : β → Option (R × S))
    (g : List (R × S) → β → Except String (List (R × S)))
    (hg : ∀ res b, g res b = match f b with
      | none => Except.ok res
      | some c => queryStep k res c) :
    ∀ (is : List β) (res : List (R × S)),
      is.foldlM g res = (is.filterMap f).foldlM (queryStep k) res := by
  intro is
  induction is with
  | nil => intro res; rfl
  | cons b bs ih =>
    intro res
    rw [List.foldlM_cons]
    cases hfb : f b with
    | none =>
      have hgb : g res b = Except.ok res := by rw [hg res b, hfb]
      rw [List.filterMap_cons, hfb, hgb]
      simpa using ih res
    | some c =>
      have hgb : g res b = queryStep k res c := by rw [hg res b, hfb]
      rw [List.filterMap_cons, hfb, List.foldlM_cons, hgb]
      cases hq : queryStep k res c with
      | error e => rfl
      | ok r => simpa using ih r

lemma foldlM_of_flatMap {β : Type} {k : ℕ} (f : β → List (R × S))
    (g : List (R × S) → β → Except String (List (R × S)))
    (hg : ∀ res b, g res b = (f b).foldlM (queryStep k) res) :
    ∀ (is : List β) (res : List (R × S)),
      is.foldlM g res = (is.flatMap f).foldlM (queryStep k) res := by
  intro is
  induction is with
  | nil => intro res; rfl
  | cons b bs ih =>
    intro res
    rw [List.foldlM_cons, List.flatMap_cons, List.foldlM_append, hg res b]
    cases hq : (f b).foldlM (queryStep k) res with
    | error e => rfl
    | ok r => simpa using ih r

lemma leaf_query_eq_foldlM (l : RSTLeafNode R S) (key : List R) (k : ℕ)
    (filter : S → Bool) (res : List (R × S)) :
    RSTLeafNode.query l key k res filter =
      (RSTNode.candList 0 l key filter).foldlM (queryStep k) res := by
  refine (foldlM_of_filterMap (k := k)
    (fun i => match l.children.getD i none with
      | none => none
      | some v =>
        if filter v then
          some (distToMin key ((l.subregions.getD i none).getD ⟨[], []⟩), v)
        else none) _ ?_ (List.range l.size) res)
  intro res i
  show (match l.children.getD i none with
      | none => Except.ok res
      | some v =>
        if filter v then
          queryStep k res (distToMin key ((l.subregions.getD i none).getD ⟨[], []⟩), v)
        else Except.ok res) =
    (match (match l.children.getD i none with
      | none => none
      | some v =>
        if filter v then
          some (distToMin key ((l.subregions.getD i none).getD ⟨[], []⟩), v)
        else none) with
    | none => Except.ok res
    | some c => queryStep k res c)
  cases l.children.getD i none with
  | none => rfl
  | some v => by_cases hf : filter v <;> simp [hf]

lemma node_query_eq_foldlM : ∀ (h : ℕ) (n : RSTNode R S h) (key : List R) (k : ℕ)
    (filter : S → Bool) (res : List (R × S)),
    RSTNode.query h n key k res filter =
      (RSTNode.candList h n key filter).foldlM (queryStep k) res := by
  intro h
  induction h with
  | zero => intro n key k filter res; exact leaf_query_eq_foldlM n key k filter res
  | succ h ih =>
    intro n key k filter res
    rw [RSTNode.query, RSTNode.candList]
    refine foldlM_of_flatMap _ _ ?_ _ res
    intro res di
    cases hchild : n.children.getD di.2 none with
    | none => rfl
    | some child => exact ih child key k filter res

end QueryFold

section ListHelpers

lemma filterMap_eq_map_of_some {α β : Type} (l : List α) (f : α → Option β) (g : α → β)
    (h : ∀ a ∈ l, f a = some (g a)) : l.filterMap f = l.map g := by
  induction l with
  | nil => rfl
  | cons a as ih =>
    rw [List.filterMap_cons, h a (List.mem_cons_self _ _), List.map_cons,
      ih (fun b hb => h b (List.mem_cons_of_mem _ hb))]

lemma map_filter_eq_filterMap {α β : Type} (p : α → Bool) (q : α → β) (l : List α) :
    (l.filter p).map q = l.filterMap (fun a => if p a then some (q a) else none) := by
  induction l with
  | nil => rfl
  | cons a as ih =>
    by_cases hp : p a <;> simp [List.filter_cons, List.filterMap_cons, hp, ih]

lemma coe_flatMap_eq_sum {α β : Type} (l : List α) (f : α → List β) :
    ((l.flatMap f : List β) : Multiset β) =
      (l.map (fun a => ((f a : List β) : Multiset β))).sum := by
  induction l with
  | nil => rfl
  | cons a as ih =>
    rw [List.flatMap_cons, List.map_cons, List.sum_cons, ← ih]
    exact (Multiset.coe_add _ _).symm ▸ rfl

lemma filter_listSum {α : Type} (p : α → Prop) [DecidablePred p] (ms : List (Multiset α)) :
    Multiset.filter p ms.sum = (ms.map (Multiset.filter p)).sum := by
  induction ms with
  | nil => simp
  | cons m rest ih => simp [Multiset.filter_add, ih]

lemma map_listSum {α β : Type} (f : α → β) (ms : List (Multiset α)) :
    Multiset.map f ms.sum = (ms.map (Multiset.map f)).sum := by
  induction ms with
  | nil => simp
  | cons m rest ih => simp [Multiset.map_add, ih]

lemma filter_bind' {α β : Type} (p : β → Prop) [DecidablePred p] (m : Multiset α)
    (f : α → Multiset β) :
    Multiset.filter p (m.bind f) = m.bind (fun a => Multiset.filter p (f a)) := by
  refine Multiset.induction_on m (by simp) ?_
  intro a s ih
  simp [Multiset.cons_bind, Multiset.filter_add, ih]

end ListHelpers

section WFLemmas

variable {N L : ℕ}

lemma wf_leaf_elim {l : RSTLeafNode R S} (hWF : RSTNode.WF N L 0 l = true) :
    l.size ≤ L ∧ l.subregions.length = L ∧ l.children.length = L ∧
    ∀ i, i < l.size → (∃ b, l.subregions.getD i none = some b) ∧
      ∃ v, l.children.getD i none = some v := by
  rw [RSTNode.WF] at hWF
  simp only [Bool.and_eq_true, decide_eq_true_eq, List.all_eq_true, List.mem_range] at hWF
  obtain ⟨⟨⟨h1, h2⟩, h3⟩, h4⟩ := hWF
  refine ⟨h1, h2, h3, fun i hi => ?_⟩
  obtain ⟨hs, hc⟩ := h4 i hi
  exact ⟨Option.isSome_iff_exists.mp hs, Option.isSome_iff_exists.mp hc⟩

lemma wf_internal_elim {h : ℕ} {n : RSTInternalNode R (RSTNode R S h)}
    (hWF : RSTNode.WF N L (h + 1) n = true) :
    1 ≤ n.size ∧ n.size ≤ N ∧ n.subregions.length = N ∧ n.children.length = N ∧
    ∀ i, i < n.size → (∃ b, n.subregions.getD i none = some b) ∧
      ∃ child, n.children.getD i none = some child ∧ RSTNode.WF N L h child = true := by
  rw [RSTNode.WF] at hWF
  simp only [Bool.and_eq_true, decide_eq_true_eq, List.all_eq_true, List.mem_range] at hWF
  obtain ⟨⟨⟨⟨h0, h1⟩, h2⟩, h3⟩, h4⟩ := hWF
  refine ⟨h0, h1, h2, h3, fun i hi => ?_⟩
  obtain ⟨hs, hc⟩ := h4 i hi
  refine ⟨Option.isSome_iff_exists.mp hs, ?_⟩
  cases hcc : n.children.getD i none with
  | none => rw [hcc] at hc; exact absurd hc (by simp)
  | some child => rw [hcc] at hc; exact ⟨child, rfl, hc⟩

end WFLemmas

section CandMultiset

variable [LinearOrder S] {N L : ℕ}

lemma coe_candList_eq (key : List R) (filter : S → Bool) :
    ∀ (h : ℕ) (n : RSTNode R S h), RSTNode.WF N L h n = true →
      ((RSTNode.candList h n key filter : List (R × S)) : Multiset (R × S)) =
        Multiset.map (fun e => (distToMin key e.1, e.2))
          (Multiset.filter (fun e => filter e.2 = true)
            ((RSTNode.entriesList h n : List (MinimumBoundingRegion R × S)) :
              Multiset (MinimumBoundingRegion R × S))) := by
  intro h
  induction h with
  | zero =>
    intro l hWF
    obtain ⟨_, _, _, hslots⟩ := wf_leaf_elim hWF
    rw [RSTNode.candList, RSTNode.entriesList]
    rw [Multiset.filter_coe, Multiset.map_coe]
    congr 1
    rw [map_filter_eq_filterMap, List.filterMap_filterMap]
    refine List.filterMap_congr ?_
    intro i hi
    simp only [RSTNode.size_zero, List.mem_range] at hi
    obtain ⟨⟨b, hb⟩, v, hv⟩ := hslots i hi
    rw [hb, hv]
    by_cases hf : filter v <;> simp [hf]
  | succ h ih =>
    intro n hWF
    obtain ⟨hpos, hszN, hsublen, hchlen, hslots⟩ := wf_internal_elim hWF
    rw [RSTNode.candList, RSTNode.entriesList]
    rw [← Multiset.coe_bind, ← Multiset.coe_bind]
    have hms : ((((List.range (RSTNode.size (h + 1) n)).filterMap (fun i =>
        (n.subregions.getD i none).map
          (fun b => (point_to_box_distance_squared key b, i)))).insertionSort
        (fun a b => a.1 < b.1 ∨ (a.1 = b.1 ∧ a.2 ≤ b.2)) :
          List (R × ℕ)) : Multiset (R × ℕ)) =
        (((List.range (RSTNode.size (h + 1) n)).filterMap (fun i =>
          (n.subregions.getD i none).map
            (fun b => (point_to_box_distance_squared key b, i))) :
            List (R × ℕ)) : Multiset (R × ℕ)) :=
      Multiset.coe_eq_coe.mpr (List.perm_insertionSort _ _)
    rw [hms]
    have hpq : ((List.range (RSTNode.size (h + 1) n)).filterMap (fun i =>
        (n.subregions.getD i none).map
          (fun b => (point_to_box_distance_squared key b, i)))) =
        (List.range (RSTNode.size (h + 1) n)).map (fun i =>
          (point_to_box_distance_squared key
            ((n.subregions.getD i none).getD ⟨[], []⟩), i)) := by
      refine filterMap_eq_map_of_some _ _ _ ?_
      intro i hi
      simp only [RSTNode.size_succ, List.mem_range] at hi
      obtain ⟨⟨b, hb⟩, _⟩ := hslots i hi
      rw [hb]
      simp
    rw [hpq, ← Multiset.map_coe, Multiset.bind_map, filter_bind', Multiset.map_bind]
    refine Multiset.bind_congr ?_
    intro i hi
    rw [Multiset.mem_coe, List.mem_range, RSTNode.size_succ] at hi
    obtain ⟨_, child, hchild, hcwf⟩ := hslots i hi
    have hsnd : ((point_to_box_distance_squared key
        ((n.subregions.getD i none).getD ⟨[], []⟩), i).2 : ℕ) = i := rfl
    rw [hsnd, hchild]
    exact ih child hcwf

end CandMultiset

section SlotHelpers

lemma filterMap_range_getElem? {α : Type} (l : List α) :
    (List.range l.length).filterMap (fun i => l[i]?) = l := by
  induction l using List.reverseRecOn with
  | nil => rfl
  | append_singleton l a ih =>
    rw [List.length_append, List.length_singleton, List.range_succ, List.filterMap_append]
    have h1 : (List.range l.length).filterMap (fun i => (l ++ [a])[i]?) =
        (List.range l.length).filterMap (fun i => l[i]?) := by
      refine List.filterMap_congr ?_
      intro i hi
      rw [List.mem_range] at hi
      rw [List.getElem?_append_left hi]
    rw [h1, ih]
    simp

lemma getD_padSlots_lt {α : Type} (cap : ℕ) (l : List (Option α)) (i : ℕ)
    (h : i < l.length) : (padSlots cap l).getD i none = l.getD i none := by
  rw [padSlots, List.getD_eq_getElem?_getD, List.getD_eq_getElem?_getD,
    List.getElem?_append_left h]

lemma getD_padSlots_ge {α : Type} (cap : ℕ) (l : List (Option α)) (i : ℕ)
    (h : l.length ≤ i) : (padSlots cap l).getD i none = none := by
  rw [padSlots, List.getD_eq_getElem?_getD, List.getElem?_append_right h,
    List.getElem?_replicate]
  split <;> rfl

lemma length_padSlots {α : Type} (cap : ℕ) (l : List (Option α)) (h : l.length ≤ cap) :
    (padSlots cap l).length = cap := by
  rw [padSlots, List.length_append, List.length_replicate]
  omega

lemma getD_map_of_getElem? {α β : Type} {l : List α} {i : ℕ} {a : α}
    (h : l[i]? = some a) (g : α → Option β) : (l.map g).getD i none = g a := by
  rw [List.getD_eq_getElem?_getD, List.getElem?_map, h]
  rfl

end SlotHelpers

section NodeBuild

variable {N L : ℕ}

lemma leaf_entriesList_build (cap : ℕ) (r : Option (MinimumBoundingRegion R))
    (es : List (SplitEntry R S)) (sz : ℕ) (hsz : sz = es.length) (hlen : es.length ≤ cap) :
    RSTNode.entriesList 0 (⟨sz, r,
      padSlots cap (es.map (fun e => some e.region)),
      padSlots cap (es.map (fun e => some e.value))⟩ : RSTLeafNode R S) =
      es.map (fun e => (e.region, e.value)) := by
  subst hsz
  rw [RSTNode.entriesList]
  have hcong : ∀ i ∈ List.range es.length,
      (match (padSlots cap (es.map (fun e => some e.region))).getD i none,
             (padSlots cap (es.map (fun e => some e.value))).getD i none with
       | some b, some v => some (b, v)
       | _, _ => none) =
      (es.map (fun e => (e.region, e.value)))[i]? := by
    intro i hi
    rw [List.mem_range] at hi
    have he : es[i]? = some es[i] := List.getElem?_eq_getElem hi
    rw [getD_padSlots_lt _ _ _ (by simpa using hi),
      getD_padSlots_lt _ _ _ (by simpa using hi),
      getD_map_of_getElem? he, getD_map_of_getElem? he,
      List.getElem?_map, he]
    rfl
  calc (List.range (RSTNode.size 0 (⟨es.length, r,
        padSlots cap (es.map (fun e => some e.region)),
        padSlots cap (es.map (fun e => some e.value))⟩ : RSTLeafNode R S))).filterMap _
      = (List.range es.length).filterMap
          (fun i => (es.map (fun e => (e.region, e.value)))[i]?) :=
        List.filterMap_congr hcong
    _ = es.map (fun e => (e.region, e.value)) := by
        rw [← List.length_map es (fun e => (e.region, e.value))]
        exact filterMap_range_getElem? _

lemma leaf_WF_build (r : Option (MinimumBoundingRegion R)) (es : List (SplitEntry R S))
    (sz : ℕ) (hsz : sz = es.length) (hlen : es.length ≤ L) :
    RSTNode.WF N L 0 (⟨sz, r,
      padSlots L (es.map (fun e => some e.region)),
      padSlots L (es.map (fun e => some e.value))⟩ : RSTLeafNode R S) = true := by
  subst hsz
  rw [RSTNode.WF]
  simp only [Bool.and_eq_true, decide_eq_true_eq, List.all_eq_true, List.mem_range]
  refine ⟨⟨⟨hlen, length_padSlots _ _ (by simpa using hlen)⟩,
    length_padSlots _ _ (by simpa using hlen)⟩, ?_⟩
  intro i hi
  have he : es[i]? = some es[i] := List.getElem?_eq_getElem hi
  rw [getD_padSlots_lt _ _ _ (by simpa using hi),
    getD_padSlots_lt _ _ _ (by simpa using hi),
    getD_map_of_getElem? he, getD_map_of_getElem? he]
  exact ⟨rfl, rfl⟩

lemma leaf_pack_fold_ok (subs : List (Option (MinimumBoundingRegion R)))
    (cs : List (Option S)) :
    ∀ (n : ℕ), (∀ i, i < n → (subs.getD i none).isSome ∧ (cs.getD i none).isSome) →
    ∀ acc, (List.range n).foldlM (fun acc i =>
        match subs.getD i none, cs.getD i none with
        | some r, some c => Except.ok (acc ++ [(⟨r, c⟩ : SplitEntry R S)])
        | _, _ => Except.error "Corrupt node: missing subregion/child...") acc =
      Except.ok (acc ++ (List.range n).filterMap (fun i =>
        match subs.getD i none, cs.getD i none with
        | some r, some c => some ((⟨r, c⟩ : SplitEntry R S))
        | _, _ => none)) := by
  intro n
  induction n with
  | zero =>
    intro _ acc
    rw [List.range_zero, List.filterMap_nil, List.append_nil]
    rfl
  | succ n ih =>
    intro hs acc
    rw [List.range_succ, List.foldlM_append, List.filterMap_append,
      ih (fun i hi => hs i (by omega)) acc]
    obtain ⟨hsub, hch⟩ := hs n (by omega)
    obtain ⟨r, hr⟩ := Option.isSome_iff_exists.mp hsub
    obtain ⟨c, hc⟩ := Option.isSome_iff_exists.mp hch
    rw [List.getD_eq_getElem?_getD] at hr hc
    simp [List.getD_eq_getElem?_getD, hr, hc]
    rw [← List.append_assoc]
    rfl

lemma leaf_pack_entries_ok (N' : ℕ) (subs : List (Option (MinimumBoundingRegion R)))
    (cs : List (Option S)) (key : List R) (value : S)
    (hs : ∀ i, i < N' → (subs.getD i none).isSome ∧ (cs.getD i none).isSome) :
    RSTLeafNode.pack_entries N' subs cs key value = Except.ok
      ((List.range N').filterMap (fun i =>
        match subs.getD i none, cs.getD i none with
        | some r, some c => some ((⟨r, c⟩ : SplitEntry R S))
        | _, _ => none) ++ [⟨.ofPoint key, value⟩]) := by
  rw [RSTLeafNode.pack_entries, leaf_pack_fold_ok subs cs N' hs []]
  simp only [List.nil_append]
  rfl

lemma internal_pack_fold_ok {α : Type} (subs : List (Option (MinimumBoundingRegion R)))
    (cs : List (Option α)) :
    ∀ (n : ℕ), (∀ i, i < n → (subs.getD i none).isSome) →
    ∀ acc, (List.range n).foldlM (fun acc i =>
        match subs.getD i none with
        | some r => Except.ok (acc ++ [(⟨r, cs.getD i none⟩ : SplitEntry R (Option α))])
        | none => Except.error "undefined: disengaged subregion dereferenced") acc =
      Except.ok (acc ++ (List.range n).filterMap (fun i =>
        (subs.getD i none).map (fun r => (⟨r, cs.getD i none⟩ : SplitEntry R (Option α))))) := by
  intro n
  induction n with
  | zero =>
    intro _ acc
    rw [List.range_zero, List.filterMap_nil, List.append_nil]
    rfl
  | succ n ih =>
    intro hs acc
    rw [List.range_succ, List.foldlM_append, List.filterMap_append,
      ih (fun i hi => hs i (by omega)) acc]
    obtain ⟨r, hr⟩ := Option.isSome_iff_exists.mp (hs n (by omega))
    rw [List.getD_eq_getElem?_getD] at hr
    simp [List.getD_eq_getElem?_getD, hr]
    rw [← List.append_assoc]
    rfl

lemma internal_pack_entries_ok {α : Type} (N' : ℕ)
    (subs : List (Option (MinimumBoundingRegion R))) (cs : List (Option α))
    (new_mbr : MinimumBoundingRegion R) (new_child : α)
    (hs : ∀ i, i < N' → (subs.getD i none).isSome) :
    RSTInternalNode.pack_entries N' subs cs new_mbr new_child = Except.ok
      ((List.range N').filterMap (fun i =>
        (subs.getD i none).map (fun r => (⟨r, cs.getD i none⟩ : SplitEntry R (Option α)))) ++
        [⟨new_mbr, some new_child⟩]) := by
  rw [RSTInternalNode.pack_entries, internal_pack_fold_ok subs cs N' hs []]
  simp only [List.nil_append]
  rfl

end NodeBuild

section SplitOk

variable {V' : Type}

/-- A recorded (non-initial) split tracker: some candidate was taken, at an
evaluated split position. -/
def splitValid (L m : ℕ) (t : SplitTracker R) : Prop :=
  t.overlap ≠ ⊤ ∧ t.location ∈ splitPositions L m

lemma mem_splitPositions {L m k : ℕ} :
    k ∈ splitPositions L m ↔ m ≤ k ∧ k < m + (L + 1 - m - m) := by
  rw [splitPositions, List.mem_range'_1]

/-- One pass of `find_best_split` over a single axis: sort, then scan the
split positions (the body of the loop at RSTTree.cpp:191-226). -/
def axisStep (N' L' : ℕ) (st : List (SplitEntry R V') × SplitTracker R) (axis : ℕ) :
    List (SplitEntry R V') × SplitTracker R :=
  let sorted := sortByAxis axis st.1
  let tr := (splitPositions L' (MIN_SPLIT_COUNT N')).foldl (fun t k =>
    considerCandidate axis k (unionBoxes ((sorted.take k).map SplitEntry.region))
      (unionBoxes ((sorted.drop k).map SplitEntry.region)) t) st.2
  (sorted, tr)

lemma considerCandidate_pres {L m axis k : ℕ} {lo up : MinimumBoundingRegion R}
    {t : SplitTracker R} (hk : k ∈ splitPositions L m) (ht : splitValid L m t) :
    splitValid L m (considerCandidate axis k lo up t) := by
  rw [considerCandidate]
  simp only []
  split_ifs with h1 h2 h3 h4
  · exact ht
  · exact ⟨WithTop.coe_ne_top, hk⟩
  · exact ⟨WithTop.coe_ne_top, hk⟩
  · exact ⟨WithTop.coe_ne_top, hk⟩
  · exact ht

lemma considerCandidate_init {L m axis k : ℕ} {lo up : MinimumBoundingRegion R}
    {t : SplitTracker R} (hk : k ∈ splitPositions L m) (ht : t.overlap = ⊤) :
    splitValid L m (considerCandidate axis k lo up t) := by
  rw [considerCandidate]
  simp only []
  rw [if_neg (by rw [ht]; exact not_top_lt), if_pos (by rw [ht]; exact WithTop.coe_lt_top _)]
  exact ⟨WithTop.coe_ne_top, hk⟩

lemma foldPositions_pres_aux {L m axis : ℕ} (sorted : List (SplitEntry R V')) :
    ∀ (ks : List ℕ), (∀ k ∈ ks, k ∈ splitPositions L m) →
    ∀ t : SplitTracker R, splitValid L m t →
    splitValid L m (ks.foldl (fun t k =>
      considerCandidate axis k (unionBoxes ((sorted.take k).map SplitEntry.region))
        (unionBoxes ((sorted.drop k).map SplitEntry.region)) t) t) := by
  intro ks
  induction ks with
  | nil => intro _ t ht; exact ht
  | cons k ks ih =>
    intro hmem t ht
    rw [List.foldl_cons]
    exact ih (fun x hx => hmem x (List.mem_cons_of_mem _ hx)) _
      (considerCandidate_pres (hmem k (List.mem_cons_self _ _)) ht)

lemma foldPositions_valid {L m axis : ℕ} (sorted : List (SplitEntry R V')) :
    ∀ (ks : List ℕ), (∀ k ∈ ks, k ∈ splitPositions L m) → ks ≠ [] →
    ∀ t : SplitTracker R, (t.overlap = ⊤ ∨ splitValid L m t) →
    splitValid L m (ks.foldl (fun t k =>
      considerCandidate axis k (unionBoxes ((sorted.take k).map SplitEntry.region))
        (unionBoxes ((sorted.drop k).map SplitEntry.region)) t) t) := by
  intro ks
  induction ks with
  | nil => intro _ hne; exact absurd rfl hne
  | cons k ks ih =>
    intro hmem _ t ht
    rw [List.foldl_cons]
    have h1 : splitValid L m (considerCandidate axis k
        (unionBoxes ((sorted.take k).map SplitEntry.region))
        (unionBoxes ((sorted.drop k).map SplitEntry.region)) t) := by
      rcases ht with ht | ht
      · exact considerCandidate_init (hmem k (List.mem_cons_self _ _)) ht
      · exact considerCandidate_pres (hmem k (List.mem_cons_self _ _)) ht
    cases ks with
    | nil => exact h1
    | cons kk ks2 =>
      refine foldPositions_pres_aux sorted (kk :: ks2)
        (fun x hx => hmem x (List.mem_cons_of_mem _ hx)) _ h1

lemma axisStep_valid {N' L' : ℕ} (hpos : splitPositions L' (MIN_SPLIT_COUNT N') ≠ [])
    (st : List (SplitEntry R V') × SplitTracker R) (axis : ℕ)
    (hQ : st.2.overlap = ⊤ ∨ splitValid L' (MIN_SPLIT_COUNT N') st.2) :
    (axisStep N' L' st axis).1 = sortByAxis axis st.1 ∧
    splitValid L' (MIN_SPLIT_COUNT N') (axisStep N' L' st axis).2 := by
  refine ⟨rfl, ?_⟩
  exact foldPositions_valid _ _ (fun _ hk => hk) hpos _ hQ

lemma foldAxes_inv (N' L' : ℕ) (hpos : splitPositions L' (MIN_SPLIT_COUNT N') ≠ [])
    (entries : List (SplitEntry R V')) :
    ∀ (axes : List ℕ) (st : List (SplitEntry R V') × SplitTracker R),
      st.1.Perm entries → (st.2.overlap = ⊤ ∨ splitValid L' (MIN_SPLIT_COUNT N') st.2) →
      (axes.foldl (axisStep N' L') st).1.Perm entries ∧
      ((axes.foldl (axisStep N' L') st).2.overlap = ⊤ ∨
        splitValid L' (MIN_SPLIT_COUNT N') (axes.foldl (axisStep N' L') st).2) ∧
      (axes ≠ [] → splitValid L' (MIN_SPLIT_COUNT N') (axes.foldl (axisStep N' L') st).2) := by
  intro axes
  induction axes with
  | nil =>
    intro st hperm hQ
    exact ⟨hperm, hQ, fun hne => absurd rfl hne⟩
  | cons a rest ih =>
    intro st hperm hQ
    rw [List.foldl_cons]
    obtain ⟨hfst, hvalid⟩ := axisStep_valid hpos st a hQ
    have hsorted : (axisStep N' L' st a).1.Perm entries := by
      rw [hfst]; exact (List.perm_insertionSort _ _).trans hperm
    obtain ⟨hp, hq, _⟩ := ih (axisStep N' L' st a) hsorted (Or.inr hvalid)
    refine ⟨hp, hq, fun _ => ?_⟩
    cases rest with
    | nil => exact hvalid
    | cons a2 rest2 =>
      obtain ⟨_, _, h3⟩ := ih (axisStep N' L' st a) hsorted (Or.inr hvalid)
      exact h3 (by simp)

lemma find_best_split_ok (D N' L' : ℕ) (hD : 1 ≤ D)
    (hpos : splitPositions L' (MIN_SPLIT_COUNT N') ≠ [])
    (entries : List (SplitEntry R V')) :
    ∃ tr fin, RSTLeafNode.find_best_split D N' L' entries = Except.ok (tr, fin) ∧
      fin.Perm entries ∧ tr.location ∈ splitPositions L' (MIN_SPLIT_COUNT N') := by
  have hfold : (List.range D).foldl (fun st axis =>
      let sorted := sortByAxis (V := V') axis st.1
      let tr := (splitPositions L' (MIN_SPLIT_COUNT N')).foldl (fun t k =>
        considerCandidate axis k (unionBoxes ((sorted.take k).map SplitEntry.region))
          (unionBoxes ((sorted.drop k).map SplitEntry.region)) t) st.2
      (sorted, tr)) (entries, {}) =
      (List.range D).foldl (axisStep N' L') (entries, {}) := rfl
  obtain ⟨hp, _, h3⟩ := foldAxes_inv N' L' hpos entries (List.range D)
    (entries, {}) (List.Perm.refl _) (Or.inl rfl)
  have hne : List.range D ≠ [] := by
    cases D with
    | zero => omega
    | succ d => simp [List.range_succ]
  obtain ⟨hov, hloc⟩ := h3 hne
  rw [RSTLeafNode.find_best_split]
  simp only [hfold]
  rw [if_neg hov]
  exact ⟨_, _, rfl, hp, hloc⟩

end SplitOk

section InsertHelpers

variable {N L : ℕ}

lemma splitPositions_ne_nil {C : ℕ} (hC : 2 ≤ C) :
    splitPositions C (MIN_SPLIT_COUNT C) ≠ [] := by
  rw [splitPositions, Ne, List.range'_eq_nil, MIN_SPLIT_COUNT]
  omega

lemma foldl_fst_mem {σ : Type} (f : (ℕ × σ) → ℕ → (ℕ × σ)) (bound : ℕ)
    (hf : ∀ st i, (f st i).1 = i ∨ f st i = st) :
    ∀ (l : List ℕ) (st : ℕ × σ), st.1 < bound → (∀ i ∈ l, i < bound) →
      (l.foldl f st).1 < bound := by
  intro l
  induction l with
  | nil => intro st h _; exact h
  | cons i is ih =>
    intro st h hl
    rw [List.foldl_cons]
    refine ih _ ?_ (fun j hj => hl j (List.mem_cons_of_mem _ hj))
    rcases hf st i with h1 | h1
    · rw [h1]; exact hl i (List.mem_cons_self _ _)
    · rw [h1]; exact h

lemma find_best_child_lt {α : Type} (n : RSTInternalNode R α)
    (kb : MinimumBoundingRegion R) (hpos : 1 ≤ n.size) :
    n.find_best_child_insertion kb < n.size := by
  rw [RSTInternalNode.find_best_child_insertion]
  refine foldl_fst_mem _ n.size ?_ _ _ (by omega) (fun i hi => List.mem_range.mp hi)
  intro st i
  cases n.subregions.getD i none with
  | none => exact Or.inr rfl
  | some current =>
    simp only []
    split_ifs with hcond
    · exact Or.inl rfl
    · exact Or.inr rfl

lemma flatMap_congr_mem {α β : Type} {l : List α} {f g : α → List β}
    (h : ∀ a ∈ l, f a = g a) : l.flatMap f = l.flatMap g := by
  induction l with
  | nil => rfl
  | cons a as ih =>
    rw [List.flatMap_cons, List.flatMap_cons, h a (List.mem_cons_self _ _),
      ih (fun b hb => h b (List.mem_cons_of_mem _ hb))]

lemma coe_flatMap_update {β : Type} (g g' : ℕ → List β) (best : ℕ)
    (hne : ∀ i, i ≠ best → g' i = g i) :
    ∀ (sz : ℕ), best < sz →
    (((List.range sz).flatMap g' : List β) : Multiset β) + (g best : List β) =
      (((List.range sz).flatMap g : List β) : Multiset β) + (g' best : List β) := by
  intro sz
  induction sz with
  | zero => omega
  | succ sz ih =>
    intro hbest
    rw [List.range_succ, List.flatMap_append, List.flatMap_append,
      show ([sz] : List ℕ).flatMap g' = g' sz by simp,
      show ([sz] : List ℕ).flatMap g = g sz by simp,
      ← Multiset.coe_add, ← Multiset.coe_add]
    rcases Nat.lt_succ_iff_lt_or_eq.mp hbest with hlt | heq
    · rw [hne sz (by omega)]
      rw [add_right_comm, ih hlt, add_right_comm]
    · subst heq
      rw [flatMap_congr_mem (fun i hi => hne i (by
        rw [List.mem_range] at hi; omega))]
      rw [add_right_comm, add_right_comm ((((List.range best).flatMap g : List β) :
        Multiset β)) _ _]

lemma flatMap_range_of_getElem? {α β : Type} (l : List α) (G : α → List β) :
    ∀ (f : ℕ → List β), (∀ i a, l[i]? = some a → f i = G a) →
    (List.range l.length).flatMap f = l.flatMap G := by
  induction l using List.reverseRecOn with
  | nil => intro f _; rfl
  | append_singleton l a ih =>
    intro f hf
    rw [List.length_append, List.length_singleton, List.range_succ,
      List.flatMap_append, List.flatMap_append]
    congr 1
    · refine ih f ?_
      intro i b hb
      obtain ⟨hlt, _⟩ := List.getElem?_eq_some_iff.mp hb
      exact hf i b (by rw [List.getElem?_append_left hlt]; exact hb)
    · have ha : f l.length = G a := hf l.length a (List.getElem?_concat_length l a)
      simp [ha]

lemma internal_entriesList_build {h : ℕ} (cap : ℕ) (r : Option (MinimumBoundingRegion R))
    (es : List (SplitEntry R (Option (RSTNode R S h)))) (sz : ℕ) (hsz : sz = es.length)
    (hlen : es.length ≤ cap) :
    RSTNode.entriesList (h + 1) (⟨sz, r,
      padSlots cap (es.map (fun e => some e.region)),
      padSlots cap (es.map SplitEntry.value)⟩ : RSTInternalNode R (RSTNode R S h)) =
      es.flatMap (fun e => match e.value with
        | some c => RSTNode.entriesList h c
        | none => []) := by
  subst hsz
  rw [RSTNode.entriesList]
  refine flatMap_range_of_getElem? (l := es) _ _ ?_
  intro i e he
  have hlen2 : i < es.length := (List.getElem?_eq_some_iff.mp he).1
  rw [getD_padSlots_lt _ _ _ (by simpa using hlen2), getD_map_of_getElem? he]

lemma internal_WF_build {h : ℕ} (r : Option (MinimumBoundingRegion R))
    (es : List (SplitEntry R (Option (RSTNode R S h)))) (sz : ℕ) (hsz : sz = es.length)
    (hlen : es.length ≤ N) (hpos : 1 ≤ es.length)
    (hch : ∀ e ∈ es, (∃ c, e.value = some c ∧ RSTNode.WF N L h c = true)) :
    RSTNode.WF N L (h + 1) (⟨sz, r,
      padSlots N (es.map (fun e => some e.region)),
      padSlots N (es.map SplitEntry.value)⟩ : RSTInternalNode R (RSTNode R S h)) = true := by
  subst hsz
  rw [RSTNode.WF]
  simp only [Bool.and_eq_true, decide_eq_true_eq, List.all_eq_true, List.mem_range]
  refine ⟨⟨⟨⟨hpos, hlen⟩, length_padSlots _ _ (by simpa using hlen)⟩,
    length_padSlots _ _ (by simpa using hlen)⟩, ?_⟩
  intro i hi
  have he : es[i]? = some es[i] := List.getElem?_eq_getElem hi
  rw [getD_padSlots_lt _ _ _ (by simpa using hi),
    getD_padSlots_lt _ _ _ (by simpa using hi),
    getD_map_of_getElem? he, getD_map_of_getElem? he]
  obtain ⟨c, hc, hcwf⟩ := hch es[i] (List.getElem_mem hi)
  rw [hc]
  exact ⟨rfl, hcwf⟩

end InsertHelpers

lemma wf_sizesWithinCapacity {N L : ℕ} : ∀ (h : ℕ) (n : RSTNode R S h),
    RSTNode.WF N L h n = true → RSTNode.sizesWithinCapacity N L h n = true := by
  intro h
  induction h with
  | zero =>
    intro l hWF
    obtain ⟨h1, -, -, -⟩ := wf_leaf_elim hWF
    rw [RSTNode.sizesWithinCapacity]
    exact decide_eq_true h1
  | succ h ih =>
    intro n hWF
    obtain ⟨hpos, hsz, -, -, hslots⟩ := wf_internal_elim hWF
    rw [RSTNode.sizesWithinCapacity]
    simp only [Bool.and_eq_true, decide_eq_true_eq, List.all_eq_true, List.mem_range]
    refine ⟨hsz, ?_⟩
    intro i hi
    obtain ⟨-, child, hchild, hchildWF⟩ := hslots i hi
    rw [hchild]
    exact ih child hchildWF

lemma tree_wf_sizesWithinCapacity {N L : ℕ} (t : RSTTree R S)
    (hWF : RSTTree.WF N L t = true) : RSTTree.sizesWithinCapacity N L t = true := by
  match t with
  | none => rfl
  | some ⟨h, root⟩ => exact wf_sizesWithinCapacity h root hWF

lemma slots_filterMap_regions {α : Type} (cap : ℕ) (es : List (SplitEntry R α))
    (hlen : es.length ≤ cap) :
    (List.range es.length).filterMap
      (fun i => (padSlots cap (es.map (fun e => some e.region))).getD i none) =
      es.map SplitEntry.region := by
  have hcong : ∀ i ∈ List.range es.length,
      (padSlots cap (es.map (fun e => some e.region))).getD i none =
      (es.map SplitEntry.region)[i]? := by
    intro i hi
    rw [List.mem_range] at hi
    have he : es[i]? = some es[i] := List.getElem?_eq_getElem hi
    rw [getD_padSlots_lt _ _ _ (by simpa using hi), getD_map_of_getElem? he,
      List.getElem?_map, he]
    rfl
  rw [List.filterMap_congr hcong,
    show es.length = (es.map SplitEntry.region).length from
      (List.length_map es SplitEntry.region).symm]
  exact filterMap_range_getElem? _

lemma foldl_expandBoxO_some (bs : List (MinimumBoundingRegion R)) :
    ∀ acc, bs.foldl (fun a x => expandBoxO a x) (some acc) =
      some (bs.foldl MinimumBoundingRegion.expandBox acc) := by
  induction bs with
  | nil => intro acc; rfl
  | cons b bs ih =>
    intro acc
    rw [List.foldl_cons, List.foldl_cons,
      show expandBoxO (some acc) b = some (acc.expandBox b) from rfl, ih]

lemma foldl_expandBoxO_cons (b : MinimumBoundingRegion R)
    (bs : List (MinimumBoundingRegion R)) :
    (b :: bs).foldl (fun acc x => expandBoxO acc x) none =
      some (unionBoxes (b :: bs)) := by
  rw [List.foldl_cons, show expandBoxO none b = some b from rfl, unionBoxes]
  exact foldl_expandBoxO_some bs b

lemma entryUnion_leaf_build (cap : ℕ) (r : Option (MinimumBoundingRegion R))
    (es : List (SplitEntry R S)) (cs : List (Option S)) (sz : ℕ)
    (hsz : sz = es.length) (hlen : es.length ≤ cap) (hne : es ≠ []) :
    RSTNode.entryUnion 0 (⟨sz, r,
      padSlots cap (es.map (fun e => some e.region)), cs⟩ : RSTLeafNode R S) =
      some (unionBoxes (es.map SplitEntry.region)) := by
  subst hsz
  rw [show RSTNode.entryUnion 0 (⟨es.length, r,
      padSlots cap (es.map (fun e => some e.region)), cs⟩ : RSTLeafNode R S) =
      ((List.range es.length).filterMap
        (fun i => (padSlots cap (es.map (fun e => some e.region))).getD i none)).foldl
        (fun acc b => expandBoxO acc b) none from rfl]
  rw [slots_filterMap_regions cap es hlen]
  cases hes : es.map SplitEntry.region with
  | nil => exact absurd (List.map_eq_nil_iff.mp hes) hne
  | cons b bs => exact foldl_expandBoxO_cons b bs

lemma entryUnion_internal_build {h : ℕ} (cap : ℕ)
    (r : Option (MinimumBoundingRegion R))
    (es : List (SplitEntry R (Option (RSTNode R S h))))
    (cs : List (Option (RSTNode R S h))) (sz : ℕ)
    (hsz : sz = es.length) (hlen : es.length ≤ cap) (hne : es ≠ []) :
    RSTNode.entryUnion (h + 1) (⟨sz, r,
      padSlots cap (es.map (fun e => some e.region)), cs⟩ :
        RSTInternalNode R (RSTNode R S h)) =
      some (unionBoxes (es.map SplitEntry.region)) := by
  subst hsz
  rw [show RSTNode.entryUnion (h + 1) (⟨es.length, r,
      padSlots cap (es.map (fun e => some e.region)), cs⟩ :
        RSTInternalNode R (RSTNode R S h)) =
      ((List.range es.length).filterMap
        (fun i => (padSlots cap (es.map (fun e => some e.region))).getD i none)).foldl
        (fun acc b => expandBoxO acc b) none from rfl]
  rw [slots_filterMap_regions cap es hlen]
  cases hes : es.map SplitEntry.region with
  | nil => exact absurd (List.map_eq_nil_iff.mp hes) hne
  | cons b bs => exact foldl_expandBoxO_cons b bs

lemma exceptOk_bind {ε α β : Type} (a : α) (f : α → Except ε β) :
    (Except.ok a >>= f) = f a := rfl

lemma exceptError_bind {ε α β : Type} (e : ε) (f : α → Except ε β) :
    (Except.error e >>= f : Except ε β) = Except.error e := rfl

lemma one_le_MIN_SPLIT_COUNT (C : ℕ) : 1 ≤ MIN_SPLIT_COUNT C := by
  rw [MIN_SPLIT_COUNT]; omega

section LeafInsert

variable {C : ℕ}

lemma leaf_insert_absorb (D : ℕ) (key : List R) (value : S)
    (l : RSTLeafNode R S) (hWF : RSTNode.WF C C 0 l = true) (hnf : l.size ≠ C) :
    ∃ l', RSTLeafNode.insert D C C l key value = Except.ok (l', none) ∧
      RSTNode.WF C C 0 l' = true ∧
      (RSTNode.entriesList 0 l' : Multiset (MinimumBoundingRegion R × S)) =
        (RSTNode.entriesList 0 l : Multiset _) +
          {(MinimumBoundingRegion.ofPoint key, value)} ∧
      l'.size = l.size + 1 := by
  obtain ⟨hsz, hsublen, hchlen, hslots⟩ := wf_leaf_elim hWF
  have hlt : l.size < C := by omega
  refine ⟨_, by rw [RSTLeafNode.insert, if_pos hnf], ?_, ?_, rfl⟩
  · rw [RSTNode.WF]
    simp only [Bool.and_eq_true, decide_eq_true_eq, List.all_eq_true, List.mem_range]
    refine ⟨⟨⟨by simp; omega, by simp [List.length_set, hsublen]⟩,
      by simp [List.length_set, hchlen]⟩, ?_⟩
    intro i hi
    have hi2 : i < l.size + 1 := hi
    rcases Nat.lt_or_ge i l.size with hilt | hige
    · obtain ⟨⟨b, hb⟩, v, hv⟩ := hslots i hilt
      rw [List.getD_eq_getElem?_getD] at hb hv
      simp only [List.getD_eq_getElem?_getD,
        List.getElem?_set_ne (by omega : l.size ≠ i), hb, hv]
      exact ⟨rfl, rfl⟩
    · have hieq : i = l.size := by omega
      subst hieq
      simp only [List.getD_eq_getElem?_getD,
        List.getElem?_set_self (by omega : l.size < l.subregions.length),
        List.getElem?_set_self (by omega : l.size < l.children.length)]
      exact ⟨rfl, rfl⟩
  · rw [RSTNode.entriesList, RSTNode.entriesList]
    have hstep : (List.range (l.size + 1)).filterMap (fun i =>
        match (l.subregions.set l.size (some (.ofPoint key))).getD i none,
              (l.children.set l.size (some value)).getD i none with
        | some b, some v => some (b, v)
        | _, _ => none) =
        (List.range l.size).filterMap (fun i =>
          match l.subregions.getD i none, l.children.getD i none with
          | some b, some v => some (b, v)
          | _, _ => none) ++ [(MinimumBoundingRegion.ofPoint key, value)] := by
      rw [List.range_succ, List.filterMap_append]
      congr 1
      · refine List.filterMap_congr ?_
        intro i hi
        rw [List.mem_range] at hi
        simp only [List.getD_eq_getElem?_getD,
          List.getElem?_set_ne (by omega : l.size ≠ i)]
      · simp only [List.filterMap_cons, List.filterMap_nil, List.getD_eq_getElem?_getD,
          List.getElem?_set_self (by omega : l.size < l.subregions.length),
          List.getElem?_set_self (by omega : l.size < l.children.length),
          Option.getD_some]
    have hsz1 : RSTLeafNode.size
        { size := l.size + 1, region := expandPointO l.region key,
          subregions := l.subregions.set l.size (some (.ofPoint key)),
          children := l.children.set l.size (some value) } = l.size + 1 := rfl
    rw [show RSTNode.size 0 (⟨l.size + 1, expandPointO l.region key,
        l.subregions.set l.size (some (.ofPoint key)),
        l.children.set l.size (some value)⟩ : RSTLeafNode R S) = l.size + 1 from rfl,
      hstep, show RSTNode.size 0 l = l.size from rfl, ← Multiset.coe_add]
    rfl

lemma length_filterMap_of_some {α β : Type} (l : List α) (f : α → Option β)
    (h : ∀ a ∈ l, (f a).isSome) : (l.filterMap f).length = l.length := by
  induction l with
  | nil => rfl
  | cons a as ih =>
    obtain ⟨b, hb⟩ := Option.isSome_iff_exists.mp (h a (List.mem_cons_self _ _))
    rw [List.filterMap_cons, hb, List.length_cons,
      ih (fun x hx => h x (List.mem_cons_of_mem _ hx)), List.length_cons]

lemma leaf_insert_split (D : ℕ) (hD : 1 ≤ D) (hC : 2 ≤ C) (key : List R) (value : S)
    (l : RSTLeafNode R S) (hWF : RSTNode.WF C C 0 l = true) (hfull : l.size = C) :
    ∃ l' box sib, RSTLeafNode.insert D C C l key value = Except.ok (l', some (box, sib)) ∧
      RSTNode.WF C C 0 l' = true ∧ RSTNode.WF C C 0 sib = true ∧
      ((RSTNode.entriesList 0 l' : Multiset (MinimumBoundingRegion R × S)) +
        (RSTNode.entriesList 0 sib : Multiset _) =
        (RSTNode.entriesList 0 l : Multiset _) +
          {(MinimumBoundingRegion.ofPoint key, value)}) ∧
      MIN_SPLIT_COUNT C ≤ l'.size ∧ MIN_SPLIT_COUNT C ≤ sib.size ∧
      l'.size ≤ C ∧ sib.size ≤ C ∧ l'.region.isSome = true ∧
      RSTNode.entryUnion 0 sib = some box := by
  obtain ⟨hsz, hsublen, hchlen, hslots⟩ := wf_leaf_elim hWF
  have hs : ∀ i, i < C →
      (l.subregions.getD i none).isSome ∧ (l.children.getD i none).isSome := by
    intro i hi
    obtain ⟨⟨b, hb⟩, v, hv⟩ := hslots i (by omega)
    exact ⟨by rw [hb]; rfl, by rw [hv]; rfl⟩
  have hpack := leaf_pack_entries_ok C l.subregions l.children key value hs
  have hinitlen : ((List.range C).filterMap (fun i =>
      match l.subregions.getD i none, l.children.getD i none with
      | some r, some c => some ((⟨r, c⟩ : SplitEntry R S))
      | _, _ => none)).length = C := by
    rw [length_filterMap_of_some, List.length_range]
    intro i hi
    rw [List.mem_range] at hi
    obtain ⟨h1, h2⟩ := hs i hi
    obtain ⟨b, hb⟩ := Option.isSome_iff_exists.mp h1
    obtain ⟨v, hv⟩ := Option.isSome_iff_exists.mp h2
    rw [hb, hv]
    rfl
  obtain ⟨tr, fin, hfind, hperm, hloc⟩ :=
    find_best_split_ok D C C hD (splitPositions_ne_nil hC)
      ((List.range C).filterMap (fun i =>
        match l.subregions.getD i none, l.children.getD i none with
        | some r, some c => some ((⟨r, c⟩ : SplitEntry R S))
        | _, _ => none) ++ [⟨.ofPoint key, value⟩])
  have hm1 : 1 ≤ MIN_SPLIT_COUNT C := one_le_MIN_SPLIT_COUNT C
  have hmem := mem_splitPositions.mp hloc
  have hmm : MIN_SPLIT_COUNT C + MIN_SPLIT_COUNT C ≤ C := by
    rw [MIN_SPLIT_COUNT]; omega
  have hfinlen : fin.length = C + 1 := by
    rw [hperm.length_eq, List.length_append, hinitlen]
    rfl
  have hsortperm : (sortByAxis tr.axis fin).Perm
      ((List.range C).filterMap (fun i =>
        match l.subregions.getD i none, l.children.getD i none with
        | some r, some c => some ((⟨r, c⟩ : SplitEntry R S))
        | _, _ => none) ++ [⟨.ofPoint key, value⟩]) :=
    (List.perm_insertionSort _ _).trans hperm
  have hsortlen : (sortByAxis tr.axis fin).length = C + 1 := by
    rw [sortByAxis, (List.perm_insertionSort _ _).length_eq, hfinlen]
  have htakelen : ((sortByAxis tr.axis fin).take tr.location).length = tr.location := by
    rw [List.length_take, hsortlen]
    omega
  have hdroplen : ((sortByAxis tr.axis fin).drop tr.location).length =
      C + 1 - tr.location := by
    rw [List.length_drop, hsortlen]
  refine ⟨(⟨tr.location,
      some (unionBoxes (((sortByAxis tr.axis fin).take tr.location).map SplitEntry.region)),
      padSlots C (((sortByAxis tr.axis fin).take tr.location).map (fun e => some e.region)),
      padSlots C (((sortByAxis tr.axis fin).take tr.location).map (fun e => some e.value))⟩ :
        RSTLeafNode R S),
    unionBoxes (((sortByAxis tr.axis fin).drop tr.location).map SplitEntry.region),
    (⟨C + 1 - tr.location,
      some (unionBoxes (((sortByAxis tr.axis fin).drop tr.location).map SplitEntry.region)),
      padSlots C (((sortByAxis tr.axis fin).drop tr.location).map (fun e => some e.region)),
      padSlots C (((sortByAxis tr.axis fin).drop tr.location).map (fun e => some e.value))⟩ :
        RSTLeafNode R S),
    ?_, ?_, ?_, ?_, ?_, ?_, ?_, ?_, rfl, ?_⟩
  · rw [RSTLeafNode.insert, if_neg (not_not_intro hfull), hpack, exceptOk_bind,
      hfind, exceptOk_bind]
    rfl
  · exact leaf_WF_build _ _ _ htakelen.symm (by omega)
  · exact leaf_WF_build _ _ _ hdroplen.symm (by omega)
  · rw [leaf_entriesList_build _ _ _ _ htakelen.symm (by omega),
      leaf_entriesList_build _ _ _ _ hdroplen.symm (by omega)]
    rw [Multiset.coe_add, ← List.map_append, List.take_append_drop]
    have hmapped : ((sortByAxis tr.axis fin).map
        (fun e : SplitEntry R S => (e.region, e.value)) :
          Multiset (MinimumBoundingRegion R × S)) =
        ((((List.range C).filterMap (fun i =>
          match l.subregions.getD i none, l.children.getD i none with
          | some r, some c => some ((⟨r, c⟩ : SplitEntry R S))
          | _, _ => none) ++ [(⟨.ofPoint key, value⟩ : SplitEntry R S)]).map
            (fun e : SplitEntry R S => (e.region, e.value)) : List _) : Multiset _) :=
      Multiset.coe_eq_coe.mpr (hsortperm.map _)
    rw [hmapped, List.map_append, ← Multiset.coe_add]
    congr 1
    · rw [List.map_filterMap]
      have hcong : ∀ i ∈ List.range C,
          Option.map (fun e : SplitEntry R S => (e.region, e.value))
            (match l.subregions.getD i none, l.children.getD i none with
             | some r, some c => some ((⟨r, c⟩ : SplitEntry R S))
             | _, _ => none) =
          (match l.subregions.getD i none, l.children.getD i none with
           | some b, some v => some (b, v)
           | _, _ => none) := by
        intro i _
        cases l.subregions.getD i none <;> cases l.children.getD i none <;> rfl
      rw [List.filterMap_congr hcong, RSTNode.entriesList]
      have hsize : RSTNode.size 0 l = C := hfull
      rw [hsize]
  · show MIN_SPLIT_COUNT C ≤ tr.location
    omega
  · show MIN_SPLIT_COUNT C ≤ C + 1 - tr.location
    omega
  · show tr.location ≤ C
    omega
  · show C + 1 - tr.location ≤ C
    omega
  · exact entryUnion_leaf_build C _ _ _ _ hdroplen.symm (by omega)
      (List.length_pos.mp (by rw [hdroplen]; omega))

end LeafInsert

section InternalInsert

variable {C : ℕ}

/-- Entry payload collection for internal split entries: a null child
contributes nothing. -/
def childEntries {h : ℕ} (e : SplitEntry R (Option (RSTNode R S h))) :
    List (MinimumBoundingRegion R × S) :=
  match e.value with
  | some c => RSTNode.entriesList h c
  | none => []

lemma internal_parts_facts {h : ℕ} (hC : 2 ≤ C)
    (packed sorted : List (SplitEntry R (Option (RSTNode R S h))))
    (hperm : sorted.Perm packed)
    (hlen : packed.length = C + 1)
    (hall : ∀ e ∈ packed, ∃ c, e.value = some c ∧ RSTNode.WF C C h c = true)
    (loc : ℕ) (hloc : loc ∈ splitPositions C (MIN_SPLIT_COUNT C)) :
    RSTNode.WF C C (h + 1) (⟨loc,
      some (unionBoxes ((sorted.take loc).map SplitEntry.region)),
      padSlots C ((sorted.take loc).map (fun e => some e.region)),
      padSlots C ((sorted.take loc).map SplitEntry.value)⟩ :
        RSTInternalNode R (RSTNode R S h)) = true ∧
    RSTNode.WF C C (h + 1) (⟨C + 1 - loc,
      some (unionBoxes ((sorted.drop loc).map SplitEntry.region)),
      padSlots C ((sorted.drop loc).map (fun e => some e.region)),
      padSlots C ((sorted.drop loc).map SplitEntry.value)⟩ :
        RSTInternalNode R (RSTNode R S h)) = true ∧
    ((RSTNode.entriesList (h + 1) (⟨loc,
      some (unionBoxes ((sorted.take loc).map SplitEntry.region)),
      padSlots C ((sorted.take loc).map (fun e => some e.region)),
      padSlots C ((sorted.take loc).map SplitEntry.value)⟩ :
        RSTInternalNode R (RSTNode R S h)) :
          Multiset (MinimumBoundingRegion R × S)) +
     (RSTNode.entriesList (h + 1) (⟨C + 1 - loc,
      some (unionBoxes ((sorted.drop loc).map SplitEntry.region)),
      padSlots C ((sorted.drop loc).map (fun e => some e.region)),
      padSlots C ((sorted.drop loc).map SplitEntry.value)⟩ :
        RSTInternalNode R (RSTNode R S h)) : Multiset _) =
     ((packed.flatMap childEntries : List (MinimumBoundingRegion R × S)) :
       Multiset (MinimumBoundingRegion R × S))) := by
  have hm1 : 1 ≤ MIN_SPLIT_COUNT C := one_le_MIN_SPLIT_COUNT C
  have hmem := mem_splitPositions.mp hloc
  have hmm : MIN_SPLIT_COUNT C + MIN_SPLIT_COUNT C ≤ C := by
    rw [MIN_SPLIT_COUNT]; omega
  have hslen : sorted.length = C + 1 := by rw [hperm.length_eq, hlen]
  have htl : (sorted.take loc).length = loc := by
    rw [List.length_take, hslen]; omega
  have hdl : (sorted.drop loc).length = C + 1 - loc := by
    rw [List.length_drop, hslen]
  have hallS : ∀ e ∈ sorted, ∃ c, e.value = some c ∧ RSTNode.WF C C h c = true :=
    fun e he => hall e (hperm.mem_iff.mp he)
  refine ⟨?_, ?_, ?_⟩
  · exact internal_WF_build _ _ _ htl.symm (by omega) (by omega)
      (fun e he => hallS e (List.take_subset _ _ he))
  · exact internal_WF_build _ _ _ hdl.symm (by omega) (by omega)
      (fun e he => hallS e (List.drop_subset _ _ he))
  · rw [show (RSTNode.entriesList (h + 1) (⟨loc,
        some (unionBoxes ((sorted.take loc).map SplitEntry.region)),
        padSlots C ((sorted.take loc).map (fun e => some e.region)),
        padSlots C ((sorted.take loc).map SplitEntry.value)⟩ :
          RSTInternalNode R (RSTNode R S h))) =
        (sorted.take loc).flatMap childEntries from
        internal_entriesList_build C _ _ _ htl.symm (by omega),
      show (RSTNode.entriesList (h + 1) (⟨C + 1 - loc,
        some (unionBoxes ((sorted.drop loc).map SplitEntry.region)),
        padSlots C ((sorted.drop loc).map (fun e => some e.region)),
        padSlots C ((sorted.drop loc).map SplitEntry.value)⟩ :
          RSTInternalNode R (RSTNode R S h))) =
        (sorted.drop loc).flatMap childEntries from
        internal_entriesList_build C _ _ _ hdl.symm (by omega)]
    rw [Multiset.coe_add, ← List.flatMap_append, List.take_append_drop]
    rw [← Multiset.coe_bind, ← Multiset.coe_bind]
    congr 1
    exact Multiset.coe_eq_coe.mpr hperm

lemma insert_succ_unfold [LinearOrder S] (D N L : ℕ) {h : ℕ}
    (n : RSTInternalNode R (RSTNode R S h)) (key : List R) (value : S) :
    RSTNode.insert D N L (h + 1) n key value =
      match n.children.getD
          (n.find_best_child_insertion (MinimumBoundingRegion.ofPoint key)) none with
      | none => Except.error "undefined: null child dereferenced"
      | some child =>
        RSTNode.insert D N L h child key value >>= RSTNode.insertRest D N L n key := rfl

/-- `RSTNodeFN::insert` on a well-formed node succeeds, preserves
well-formedness, and accounts for the stored entries exactly: absorbing yields
the old entries plus the new one, and splitting distributes them between the
node and its sibling, both halves holding at least `MIN_SPLIT_COUNT` entries. -/
lemma insert_ok [LinearOrder S] (D : ℕ) (hD : 1 ≤ D) (hC : 2 ≤ C) (key : List R)
    (value : S) :
    ∀ (h : ℕ) (n : RSTNode R S h), RSTNode.WF C C h n = true →
      ∃ n' sp, RSTNode.insert D C C h n key value = Except.ok (n', sp) ∧
        RSTNode.WF C C h n' = true ∧
        (sp = none →
          (RSTNode.entriesList h n' : Multiset (MinimumBoundingRegion R × S)) =
            (RSTNode.entriesList h n : Multiset _) +
              {(MinimumBoundingRegion.ofPoint key, value)}) ∧
        ∀ box sib, sp = some (box, sib) →
          RSTNode.WF C C h sib = true ∧
          (RSTNode.entriesList h n' : Multiset (MinimumBoundingRegion R × S)) +
            (RSTNode.entriesList h sib : Multiset _) =
            (RSTNode.entriesList h n : Multiset _) +
              {(MinimumBoundingRegion.ofPoint key, value)} ∧
          MIN_SPLIT_COUNT C ≤ RSTNode.size h n' ∧
          MIN_SPLIT_COUNT C ≤ RSTNode.size h sib ∧
          (RSTNode.region h n').isSome = true ∧
          RSTNode.entryUnion h sib = some box := by
  intro h
  induction h with
  | zero =>
    intro l hWF
    by_cases hfull : l.size = C
    · obtain ⟨l', box, sib, heq, hWFl, hWFs, hent, hm1, hm2, _, _, hreg, huni⟩ :=
        leaf_insert_split D hD hC key value l hWF hfull
      refine ⟨l', some (box, sib), heq, hWFl, fun hx => Option.noConfusion hx,
        fun box' sib' hx => ?_⟩
      injection hx with hx2
      injection hx2 with hbx hsb
      subst hbx; subst hsb
      exact ⟨hWFs, hent, hm1, hm2, hreg, huni⟩
    · obtain ⟨l', heq, hWFl, hent, _⟩ := leaf_insert_absorb D key value l hWF hfull
      exact ⟨l', none, heq, hWFl, fun _ => hent, fun box sib hx => Option.noConfusion hx⟩
  | succ h ih =>
    intro n hWF
    obtain ⟨hpos, hszC, hsublen, hchlen, hslots⟩ := wf_internal_elim hWF
    have hbest : n.find_best_child_insertion (MinimumBoundingRegion.ofPoint key) <
        RSTInternalNode.size n :=
      find_best_child_lt n _ hpos
    obtain ⟨⟨b, hb⟩, child, hchild, hchildWF⟩ := hslots _ hbest
    obtain ⟨c', sp', hins, hc'WF, hnoneIH, hsomeIH⟩ := ih child hchildWF
    have hne : ∀ i, i ≠ n.find_best_child_insertion (MinimumBoundingRegion.ofPoint key) →
        (match (n.children.set (n.find_best_child_insertion
            (MinimumBoundingRegion.ofPoint key)) (some c')).getD i none with
          | some c => RSTNode.entriesList h c
          | none => []) =
        (match n.children.getD i none with
          | some c => RSTNode.entriesList h c
          | none => []) := by
      intro i hi
      rw [List.getD_eq_getElem?_getD, List.getD_eq_getElem?_getD,
        List.getElem?_set_ne (Ne.symm hi)]
    have hgold : (fun i => match n.children.getD i none with
        | some c => RSTNode.entriesList h c
        | none => []) (n.find_best_child_insertion (MinimumBoundingRegion.ofPoint key)) =
        RSTNode.entriesList h child := by
      show (match n.children.getD (n.find_best_child_insertion
          (MinimumBoundingRegion.ofPoint key)) none with
        | some c => RSTNode.entriesList h c
        | none => []) = _
      rw [hchild]
    have hsetB : (n.children.set (n.find_best_child_insertion
        (MinimumBoundingRegion.ofPoint key)) (some c')).getD
        (n.find_best_child_insertion (MinimumBoundingRegion.ofPoint key)) none =
        some c' := by
      rw [List.getD_eq_getElem?_getD, List.getElem?_set_self (show
        n.find_best_child_insertion (MinimumBoundingRegion.ofPoint key) <
          n.children.length by omega)]
      rfl
    have hgnew : (fun i => match (n.children.set (n.find_best_child_insertion
        (MinimumBoundingRegion.ofPoint key)) (some c')).getD i none with
        | some c => RSTNode.entriesList h c
        | none => []) (n.find_best_child_insertion (MinimumBoundingRegion.ofPoint key)) =
        RSTNode.entriesList h c' := by
      show (match (n.children.set (n.find_best_child_insertion
          (MinimumBoundingRegion.ofPoint key)) (some c')).getD
          (n.find_best_child_insertion (MinimumBoundingRegion.ofPoint key)) none with
        | some c => RSTNode.entriesList h c
        | none => []) = _
      rw [hsetB]
    have hupd := coe_flatMap_update
      (fun i => match n.children.getD i none with
        | some c => RSTNode.entriesList h c
        | none => [])
      (fun i => match (n.children.set (n.find_best_child_insertion
          (MinimumBoundingRegion.ofPoint key)) (some c')).getD i none with
        | some c => RSTNode.entriesList h c
        | none => [])
      (n.find_best_child_insertion (MinimumBoundingRegion.ofPoint key)) hne (RSTInternalNode.size n) hbest
    rw [hgold, hgnew] at hupd
    rcases sp' with _ | ⟨box, sib⟩
    · -- the child absorbed the key
      have hent := hnoneIH rfl
      refine ⟨(⟨RSTInternalNode.size n, expandPointO (RSTInternalNode.region n) key,
          n.subregions.set (n.find_best_child_insertion (MinimumBoundingRegion.ofPoint key))
            ((n.subregions.getD (n.find_best_child_insertion
              (MinimumBoundingRegion.ofPoint key)) none).map (·.expandPoint key)),
          n.children.set (n.find_best_child_insertion (MinimumBoundingRegion.ofPoint key))
            (some c')⟩ : RSTInternalNode R (RSTNode R S h)), none, ?_, ?_, fun _ => ?_,
        fun box sib hx => Option.noConfusion hx⟩
      · rw [insert_succ_unfold D C C n key value, hchild]
        show RSTNode.insert D C C h child key value >>= RSTNode.insertRest D C C n key = _
        rw [hins, exceptOk_bind]
        rfl
      · rw [RSTNode.WF]
        simp only [Bool.and_eq_true, decide_eq_true_eq, List.all_eq_true, List.mem_range]
        refine ⟨⟨⟨⟨hpos, hszC⟩, by rw [List.length_set, hsublen]⟩,
          by rw [List.length_set, hchlen]⟩, ?_⟩
        intro i hi
        by_cases hiB : i = n.find_best_child_insertion (MinimumBoundingRegion.ofPoint key)
        · subst hiB
          constructor
          · rw [List.getD_eq_getElem?_getD, List.getElem?_set_self (show
                n.find_best_child_insertion (MinimumBoundingRegion.ofPoint key) <
                  n.subregions.length by omega),
              Option.getD_some, hb, Option.map_some']
            rfl
          · rw [List.getD_eq_getElem?_getD, List.getElem?_set_self (show
                n.find_best_child_insertion (MinimumBoundingRegion.ofPoint key) <
                  n.children.length by omega)]
            exact hc'WF
        · obtain ⟨⟨bi, hbi⟩, childi, hchildi, hchildiWF⟩ := hslots i hi
          rw [List.getD_eq_getElem?_getD] at hbi hchildi
          constructor
          · rw [List.getD_eq_getElem?_getD, List.getElem?_set_ne (Ne.symm hiB), hbi]
            rfl
          · rw [List.getD_eq_getElem?_getD, List.getElem?_set_ne (Ne.symm hiB), hchildi]
            exact hchildiWF
      · rw [show (RSTNode.entriesList (h + 1) (⟨RSTInternalNode.size n, expandPointO (RSTInternalNode.region n) key,
            n.subregions.set (n.find_best_child_insertion
              (MinimumBoundingRegion.ofPoint key))
              ((n.subregions.getD (n.find_best_child_insertion
                (MinimumBoundingRegion.ofPoint key)) none).map (·.expandPoint key)),
            n.children.set (n.find_best_child_insertion
              (MinimumBoundingRegion.ofPoint key)) (some c')⟩ :
              RSTInternalNode R (RSTNode R S h)) :
            List (MinimumBoundingRegion R × S)) =
            (List.range (RSTInternalNode.size n)).flatMap (fun i =>
              match (n.children.set (n.find_best_child_insertion
                  (MinimumBoundingRegion.ofPoint key)) (some c')).getD i none with
                | some c => RSTNode.entriesList h c
                | none => []) from rfl,
          show (RSTNode.entriesList (h + 1) n : List (MinimumBoundingRegion R × S)) =
            (List.range (RSTInternalNode.size n)).flatMap (fun i =>
              match n.children.getD i none with
                | some c => RSTNode.entriesList h c
                | none => []) from rfl]
        exact (add_left_inj ((RSTNode.entriesList h child :
            List (MinimumBoundingRegion R × S)) :
            Multiset (MinimumBoundingRegion R × S))).mp
          (by rw [hupd, hent]; abel)
    · -- the child split into (box, sib)
      obtain ⟨hsibWF, hsum, -, -⟩ := hsomeIH box sib rfl
      by_cases hfull2 : RSTInternalNode.size n = C
      · -- this node is full: split it
        have hsengaged : ∀ i, i < C → (n.subregions.getD i none).isSome := by
          intro i hi
          obtain ⟨⟨bi, hbi⟩, -⟩ := hslots i (by omega)
          rw [hbi]
          rfl
        have hpack := internal_pack_entries_ok C n.subregions
          (n.children.set (n.find_best_child_insertion (MinimumBoundingRegion.ofPoint key))
            (some c')) box sib hsengaged
        obtain ⟨tr, fin, hfind, hperm, hloc⟩ :=
          find_best_split_ok D C C hD (splitPositions_ne_nil hC)
            ((List.range C).filterMap (fun i =>
              (n.subregions.getD i none).map (fun r =>
                (⟨r, (n.children.set (n.find_best_child_insertion
                  (MinimumBoundingRegion.ofPoint key)) (some c')).getD i none⟩ :
                  SplitEntry R (Option (RSTNode R S h))))) ++
              [(⟨box, some sib⟩ : SplitEntry R (Option (RSTNode R S h)))])
        have hinitlen : ((List.range C).filterMap (fun i =>
            (n.subregions.getD i none).map (fun r =>
              (⟨r, (n.children.set (n.find_best_child_insertion
                (MinimumBoundingRegion.ofPoint key)) (some c')).getD i none⟩ :
                SplitEntry R (Option (RSTNode R S h)))))).length = C := by
          rw [length_filterMap_of_some, List.length_range]
          intro i hi
          rw [List.mem_range] at hi
          obtain ⟨r, hr⟩ := Option.isSome_iff_exists.mp (hsengaged i hi)
          rw [hr]
          rfl
        have hlen : (((List.range C).filterMap (fun i =>
            (n.subregions.getD i none).map (fun r =>
              (⟨r, (n.children.set (n.find_best_child_insertion
                (MinimumBoundingRegion.ofPoint key)) (some c')).getD i none⟩ :
                SplitEntry R (Option (RSTNode R S h))))) ++
            [(⟨box, some sib⟩ : SplitEntry R (Option (RSTNode R S h)))]).length) =
            C + 1 := by
          rw [List.length_append, hinitlen]
          rfl
        have hall : ∀ e ∈ ((List.range C).filterMap (fun i =>
            (n.subregions.getD i none).map (fun r =>
              (⟨r, (n.children.set (n.find_best_child_insertion
                (MinimumBoundingRegion.ofPoint key)) (some c')).getD i none⟩ :
                SplitEntry R (Option (RSTNode R S h))))) ++
            [(⟨box, some sib⟩ : SplitEntry R (Option (RSTNode R S h)))]),
            ∃ c, e.value = some c ∧ RSTNode.WF C C h c = true := by
          intro e he
          rcases List.mem_append.mp he with he | he
          · obtain ⟨i, hi, hfi⟩ := List.mem_filterMap.mp he
            rw [List.mem_range] at hi
            obtain ⟨r, hr⟩ := Option.isSome_iff_exists.mp (hsengaged i hi)
            rw [hr, Option.map_some'] at hfi
            have he2 := Option.some.inj hfi
            by_cases hiB : i = n.find_best_child_insertion
                (MinimumBoundingRegion.ofPoint key)
            · subst hiB
              refine ⟨c', ?_, hc'WF⟩
              rw [← he2]
              show (n.children.set (n.find_best_child_insertion
                (MinimumBoundingRegion.ofPoint key)) (some c')).getD
                (n.find_best_child_insertion (MinimumBoundingRegion.ofPoint key)) none =
                some c'
              exact hsetB
            · obtain ⟨-, childi, hchildi, hchildiWF⟩ := hslots i (by omega)
              refine ⟨childi, ?_, hchildiWF⟩
              rw [← he2]
              show (n.children.set (n.find_best_child_insertion
                (MinimumBoundingRegion.ofPoint key)) (some c')).getD i none = some childi
              rw [List.getD_eq_getElem?_getD, List.getElem?_set_ne (Ne.symm hiB)]
              rw [List.getD_eq_getElem?_getD] at hchildi
              exact hchildi
          · rw [List.mem_singleton] at he
            subst he
            exact ⟨sib, rfl, hsibWF⟩
        have hsortperm : (sortByAxis tr.axis fin).Perm
            ((List.range C).filterMap (fun i =>
              (n.subregions.getD i none).map (fun r =>
                (⟨r, (n.children.set (n.find_best_child_insertion
                  (MinimumBoundingRegion.ofPoint key)) (some c')).getD i none⟩ :
                  SplitEntry R (Option (RSTNode R S h))))) ++
              [(⟨box, some sib⟩ : SplitEntry R (Option (RSTNode R S h)))]) :=
          (List.perm_insertionSort _ _).trans hperm
        obtain ⟨hWFlow, hWFup, hentparts⟩ :=
          internal_parts_facts hC _ _ hsortperm hlen hall tr.location hloc
        have hm1 : 1 ≤ MIN_SPLIT_COUNT C := one_le_MIN_SPLIT_COUNT C
        have hmem := mem_splitPositions.mp hloc
        have hmm : MIN_SPLIT_COUNT C + MIN_SPLIT_COUNT C ≤ C := by
          rw [MIN_SPLIT_COUNT]
          omega
        refine ⟨(⟨tr.location,
            some (unionBoxes (((sortByAxis tr.axis fin).take tr.location).map
              SplitEntry.region)),
            padSlots C (((sortByAxis tr.axis fin).take tr.location).map
              (fun e => some e.region)),
            padSlots C (((sortByAxis tr.axis fin).take tr.location).map
              SplitEntry.value)⟩ : RSTInternalNode R (RSTNode R S h)),
          some (unionBoxes (((sortByAxis tr.axis fin).drop tr.location).map
              SplitEntry.region),
            (⟨C + 1 - tr.location,
              some (unionBoxes (((sortByAxis tr.axis fin).drop tr.location).map
                SplitEntry.region)),
              padSlots C (((sortByAxis tr.axis fin).drop tr.location).map
                (fun e => some e.region)),
              padSlots C (((sortByAxis tr.axis fin).drop tr.location).map
                SplitEntry.value)⟩ : RSTInternalNode R (RSTNode R S h))),
          ?_, hWFlow, fun hx => Option.noConfusion hx, fun box' sib' hx => ?_⟩
        · rw [insert_succ_unfold D C C n key value, hchild]
          show RSTNode.insert D C C h child key value >>=
            RSTNode.insertRest D C C n key = _
          rw [hins, exceptOk_bind]
          simp only [RSTNode.insertRest]
          rw [if_neg (not_not_intro hfull2), hpack, exceptOk_bind, hfind, exceptOk_bind]
          rfl
        · injection hx with hx2
          injection hx2 with hbx hsb
          subst hbx; subst hsb
          refine ⟨hWFup, ?_, ?_, ?_, rfl, ?_⟩
          · rw [hentparts]
            rw [show (RSTNode.entriesList (h + 1) n : List (MinimumBoundingRegion R × S)) =
              (List.range (RSTInternalNode.size n)).flatMap (fun i =>
                match n.children.getD i none with
                  | some c => RSTNode.entriesList h c
                  | none => []) from rfl, hfull2]
            rw [List.flatMap_append]
            rw [show ([(⟨box, some sib⟩ : SplitEntry R (Option (RSTNode R S h)))] :
                List (SplitEntry R (Option (RSTNode R S h)))).flatMap childEntries =
                RSTNode.entriesList h sib from by
              simp only [List.flatMap_cons, List.flatMap_nil, List.append_nil]
              rfl]
            rw [filterMap_eq_map_of_some (List.range C) _ (fun i =>
                (⟨(n.subregions.getD i none).getD ⟨[], []⟩,
                  (n.children.set (n.find_best_child_insertion
                    (MinimumBoundingRegion.ofPoint key)) (some c')).getD i none⟩ :
                  SplitEntry R (Option (RSTNode R S h))))
              (fun i hi => by
                rw [List.mem_range] at hi
                obtain ⟨r, hr⟩ := Option.isSome_iff_exists.mp (hsengaged i hi)
                show (n.subregions.getD i none).map (fun r =>
                    (⟨r, (n.children.set (n.find_best_child_insertion
                      (MinimumBoundingRegion.ofPoint key)) (some c')).getD i none⟩ :
                      SplitEntry R (Option (RSTNode R S h)))) =
                  some (⟨(n.subregions.getD i none).getD ⟨[], []⟩,
                    (n.children.set (n.find_best_child_insertion
                      (MinimumBoundingRegion.ofPoint key)) (some c')).getD i none⟩ :
                    SplitEntry R (Option (RSTNode R S h)))
                rw [hr]
                rfl)]
            rw [show ((List.range C).map (fun i =>
                (⟨(n.subregions.getD i none).getD ⟨[], []⟩,
                  (n.children.set (n.find_best_child_insertion
                    (MinimumBoundingRegion.ofPoint key)) (some c')).getD i none⟩ :
                  SplitEntry R (Option (RSTNode R S h))))).flatMap childEntries =
                (List.range C).flatMap (fun i =>
                  match (n.children.set (n.find_best_child_insertion
                      (MinimumBoundingRegion.ofPoint key)) (some c')).getD i none with
                    | some c => RSTNode.entriesList h c
                    | none => []) from by
              rw [List.flatMap_map]
              exact flatMap_congr_mem (fun i _ => rfl)]
            rw [← Multiset.coe_add]
            rw [hfull2] at hupd
            exact (add_left_inj ((RSTNode.entriesList h child :
                List (MinimumBoundingRegion R × S)) :
                Multiset (MinimumBoundingRegion R × S))).mp
              (by rw [add_right_comm, hupd, add_assoc, hsum]; abel)
          · show MIN_SPLIT_COUNT C ≤ tr.location
            omega
          · show MIN_SPLIT_COUNT C ≤ C + 1 - tr.location
            omega
          · have hslen : (sortByAxis tr.axis fin).length = C + 1 := by
              rw [sortByAxis, (List.perm_insertionSort _ _).length_eq, hperm.length_eq, hlen]
            exact entryUnion_internal_build C _ _ _ _
              (by rw [List.length_drop, hslen]) (by rw [List.length_drop, hslen]; omega)
              (List.length_pos.mp (by rw [List.length_drop, hslen]; omega))
      · -- room for the sibling: install it at slot `size`
        refine ⟨(⟨RSTInternalNode.size n + 1, expandBoxO (RSTInternalNode.region n) box,
            n.subregions.set (RSTInternalNode.size n) (some box),
            (n.children.set (n.find_best_child_insertion
              (MinimumBoundingRegion.ofPoint key)) (some c')).set (RSTInternalNode.size n) (some sib)⟩ :
            RSTInternalNode R (RSTNode R S h)), none, ?_, ?_, fun _ => ?_,
          fun box' sib' hx => Option.noConfusion hx⟩
        · rw [insert_succ_unfold D C C n key value, hchild]
          show RSTNode.insert D C C h child key value >>=
            RSTNode.insertRest D C C n key = _
          rw [hins, exceptOk_bind]
          simp only [RSTNode.insertRest]
          rw [if_pos hfull2]
        · rw [RSTNode.WF]
          simp only [Bool.and_eq_true, decide_eq_true_eq, List.all_eq_true, List.mem_range]
          refine ⟨⟨⟨⟨show 1 ≤ RSTInternalNode.size n + 1 by omega,
            show RSTInternalNode.size n + 1 ≤ C by omega⟩,
            by rw [List.length_set, hsublen]⟩,
            by rw [List.length_set, List.length_set, hchlen]⟩, ?_⟩
          intro i hi
          have hi2 : i < RSTInternalNode.size n + 1 := hi
          rcases Nat.lt_or_ge i (RSTInternalNode.size n) with hilt | hige
          · constructor
            · obtain ⟨⟨bi, hbi⟩, -⟩ := hslots i hilt
              rw [List.getD_eq_getElem?_getD] at hbi
              rw [List.getD_eq_getElem?_getD,
                List.getElem?_set_ne (by omega : RSTInternalNode.size n ≠ i), hbi]
              rfl
            · rw [List.getD_eq_getElem?_getD,
                List.getElem?_set_ne (by omega : RSTInternalNode.size n ≠ i)]
              by_cases hiB : i = n.find_best_child_insertion
                  (MinimumBoundingRegion.ofPoint key)
              · subst hiB
                rw [List.getElem?_set_self (show
                  n.find_best_child_insertion (MinimumBoundingRegion.ofPoint key) <
                    n.children.length by omega)]
                exact hc'WF
              · obtain ⟨-, childi, hchildi, hchildiWF⟩ := hslots i hilt
                rw [List.getD_eq_getElem?_getD] at hchildi
                rw [List.getElem?_set_ne (Ne.symm hiB), hchildi]
                exact hchildiWF
          · have hieq : i = RSTInternalNode.size n := by omega
            subst hieq
            constructor
            · rw [List.getD_eq_getElem?_getD, List.getElem?_set_self (show
                RSTInternalNode.size n < n.subregions.length by omega)]
              rfl
            · rw [List.getD_eq_getElem?_getD,
                List.getElem?_set_self (show RSTInternalNode.size n <
                  (n.children.set (n.find_best_child_insertion
                    (MinimumBoundingRegion.ofPoint key)) (some c')).length by
                  rw [List.length_set]; omega)]
              exact hsibWF
        · rw [show (RSTNode.entriesList (h + 1) (⟨RSTInternalNode.size n + 1, expandBoxO (RSTInternalNode.region n) box,
              n.subregions.set (RSTInternalNode.size n) (some box),
              (n.children.set (n.find_best_child_insertion
                (MinimumBoundingRegion.ofPoint key)) (some c')).set (RSTInternalNode.size n) (some sib)⟩ :
              RSTInternalNode R (RSTNode R S h)) : List (MinimumBoundingRegion R × S)) =
              (List.range (RSTInternalNode.size n + 1)).flatMap (fun i =>
                match ((n.children.set (n.find_best_child_insertion
                    (MinimumBoundingRegion.ofPoint key)) (some c')).set (RSTInternalNode.size n)
                    (some sib)).getD i none with
                  | some c => RSTNode.entriesList h c
                  | none => []) from rfl]
          rw [List.range_succ, List.flatMap_append]
          rw [show ([RSTInternalNode.size n] : List ℕ).flatMap (fun i =>
              match ((n.children.set (n.find_best_child_insertion
                  (MinimumBoundingRegion.ofPoint key)) (some c')).set (RSTInternalNode.size n)
                  (some sib)).getD i none with
                | some c => RSTNode.entriesList h c
                | none => []) = RSTNode.entriesList h sib from by
            simp only [List.flatMap_cons, List.flatMap_nil, List.append_nil]
            rw [List.getD_eq_getElem?_getD,
              List.getElem?_set_self (show RSTInternalNode.size n <
                (n.children.set (n.find_best_child_insertion
                  (MinimumBoundingRegion.ofPoint key)) (some c')).length by
                rw [List.length_set]; omega)]
            rfl]
          rw [show (List.range (RSTInternalNode.size n)).flatMap (fun i =>
              match ((n.children.set (n.find_best_child_insertion
                  (MinimumBoundingRegion.ofPoint key)) (some c')).set (RSTInternalNode.size n)
                  (some sib)).getD i none with
                | some c => RSTNode.entriesList h c
                | none => []) =
              (List.range (RSTInternalNode.size n)).flatMap (fun i =>
                match (n.children.set (n.find_best_child_insertion
                    (MinimumBoundingRegion.ofPoint key)) (some c')).getD i none with
                  | some c => RSTNode.entriesList h c
                  | none => []) from
            flatMap_congr_mem (fun i hi => by
              rw [List.mem_range] at hi
              show (match ((n.children.set (n.find_best_child_insertion
                  (MinimumBoundingRegion.ofPoint key)) (some c')).set (RSTInternalNode.size n)
                  (some sib)).getD i none with
                | some c => RSTNode.entriesList h c
                | none => []) =
                (match (n.children.set (n.find_best_child_insertion
                    (MinimumBoundingRegion.ofPoint key)) (some c')).getD i none with
                  | some c => RSTNode.entriesList h c
                  | none => [])
              rw [List.getD_eq_getElem?_getD, List.getD_eq_getElem?_getD,
                List.getElem?_set_ne (by omega : RSTInternalNode.size n ≠ i)])]
          rw [← Multiset.coe_add]
          rw [show (RSTNode.entriesList (h + 1) n : List (MinimumBoundingRegion R × S)) =
            (List.range (RSTInternalNode.size n)).flatMap (fun i =>
              match n.children.getD i none with
                | some c => RSTNode.entriesList h c
                | none => []) from rfl]
          exact (add_left_inj ((RSTNode.entriesList h child :
              List (MinimumBoundingRegion R × S)) :
              Multiset (MinimumBoundingRegion R × S))).mp
            (by rw [add_right_comm, hupd, add_assoc, hsum]; abel)

lemma tree_insert_some_unfold [LinearOrder S] (D N L : ℕ) {h : ℕ}
    (root : RSTNode R S h) (key : List R) (value : S) :
    RSTTree.insert D N L (some ⟨h, root⟩) key value =
      RSTNode.insert D N L h root key value >>= RSTTree.insertRest N := rfl

/-- `RSTTree::insert` on a well-formed tree succeeds, preserves
well-formedness, and adds exactly the new `(MBR(key), value)` entry to the
stored entry multiset. -/
lemma tree_insert_ok [LinearOrder S] (D : ℕ) (hD : 1 ≤ D) (hC : 2 ≤ C)
    (key : List R) (value : S) (t : RSTTree R S) (hWF : RSTTree.WF C C t = true) :
    ∃ t', RSTTree.insert D C C t key value = Except.ok t' ∧
      RSTTree.WF C C t' = true ∧
      RSTTree.entries t' =
        RSTTree.entries t + {(MinimumBoundingRegion.ofPoint key, value)} := by
  match t with
  | none =>
    have h0 : ((List.replicate C (none : Option (MinimumBoundingRegion R))).set 0
        (some (MinimumBoundingRegion.ofPoint key))).getD 0 none =
        some (MinimumBoundingRegion.ofPoint key) := by
      rw [List.getD_eq_getElem?_getD, List.getElem?_set_self (show (0 : ℕ) <
        (List.replicate C (none : Option (MinimumBoundingRegion R))).length by
        rw [List.length_replicate]; omega)]
      rfl
    have h1 : ((List.replicate C (none : Option S)).set 0 (some value)).getD 0 none =
        some value := by
      rw [List.getD_eq_getElem?_getD, List.getElem?_set_self (show (0 : ℕ) <
        (List.replicate C (none : Option S)).length by
        rw [List.length_replicate]; omega)]
      rfl
    refine ⟨some ⟨0, (⟨1, expandPointO none key,
      (List.replicate C none).set 0 (some (MinimumBoundingRegion.ofPoint key)),
      (List.replicate C none).set 0 (some value)⟩ : RSTLeafNode R S)⟩, rfl, ?_, ?_⟩
    · show RSTNode.WF C C 0 (⟨1, expandPointO none key,
        (List.replicate C none).set 0 (some (MinimumBoundingRegion.ofPoint key)),
        (List.replicate C none).set 0 (some value)⟩ : RSTLeafNode R S) = true
      rw [RSTNode.WF]
      simp only [Bool.and_eq_true, decide_eq_true_eq, List.all_eq_true, List.mem_range]
      refine ⟨⟨⟨show (1 : ℕ) ≤ C by omega,
        by rw [List.length_set, List.length_replicate]⟩,
        by rw [List.length_set, List.length_replicate]⟩, ?_⟩
      intro i hi
      have hi2 : i < 1 := hi
      have hi0 : i = 0 := by omega
      subst hi0
      rw [h0, h1]
      exact ⟨rfl, rfl⟩
    · show (RSTNode.entriesList 0 (⟨1, expandPointO none key,
        (List.replicate C none).set 0 (some (MinimumBoundingRegion.ofPoint key)),
        (List.replicate C none).set 0 (some value)⟩ : RSTLeafNode R S) :
          Multiset (MinimumBoundingRegion R × S)) =
        0 + {(MinimumBoundingRegion.ofPoint key, value)}
      rw [zero_add]
      rw [show (RSTNode.entriesList 0 (⟨1, expandPointO none key,
        (List.replicate C none).set 0 (some (MinimumBoundingRegion.ofPoint key)),
        (List.replicate C none).set 0 (some value)⟩ : RSTLeafNode R S) :
          List (MinimumBoundingRegion R × S)) =
        (List.range 1).filterMap (fun i =>
          match ((List.replicate C none).set 0
              (some (MinimumBoundingRegion.ofPoint key))).getD i none,
            ((List.replicate C none).set 0 (some value)).getD i none with
          | some b, some v => some (b, v)
          | _, _ => none) from rfl]
      rw [show List.range 1 = [0] from rfl]
      simp only [List.filterMap_cons, List.filterMap_nil]
      rw [h0, h1]
      rfl
  | some ⟨hh, root⟩ =>
    have hWFn : RSTNode.WF C C hh root = true := hWF
    obtain ⟨n', sp, hins, hWF', hnone, hsome⟩ := insert_ok D hD hC key value hh root hWFn
    rcases sp with _ | ⟨box, sib⟩
    · refine ⟨some ⟨hh, n'⟩, ?_, hWF', ?_⟩
      · rw [tree_insert_some_unfold D C C root key value, hins, exceptOk_bind]
        rfl
      · show (RSTNode.entriesList hh n' : Multiset (MinimumBoundingRegion R × S)) =
          (RSTNode.entriesList hh root : Multiset _) +
            {(MinimumBoundingRegion.ofPoint key, value)}
        exact hnone rfl
    · obtain ⟨hsibWF, hsum, -, -, hreg, -⟩ := hsome box sib rfl
      have hch0 : (((List.replicate C (none : Option (RSTNode R S hh))).set 0
          (some n')).set 1 (some sib)).getD 0 none = some n' := by
        rw [List.getD_eq_getElem?_getD, List.getElem?_set_ne (by omega : (1 : ℕ) ≠ 0),
          List.getElem?_set_self (show (0 : ℕ) <
            (List.replicate C (none : Option (RSTNode R S hh))).length by
            rw [List.length_replicate]; omega)]
        rfl
      have hch1 : (((List.replicate C (none : Option (RSTNode R S hh))).set 0
          (some n')).set 1 (some sib)).getD 1 none = some sib := by
        rw [List.getD_eq_getElem?_getD, List.getElem?_set_self (show (1 : ℕ) <
          ((List.replicate C (none : Option (RSTNode R S hh))).set 0
            (some n')).length by rw [List.length_set, List.length_replicate]; omega)]
        rfl
      have hsub0 : ((((List.replicate C (none : Option (MinimumBoundingRegion R))).set 0
          (RSTNode.region hh n')).set 1 (some box))).getD 0 none =
          RSTNode.region hh n' := by
        rw [List.getD_eq_getElem?_getD, List.getElem?_set_ne (by omega : (1 : ℕ) ≠ 0),
          List.getElem?_set_self (show (0 : ℕ) <
            (List.replicate C (none : Option (MinimumBoundingRegion R))).length by
            rw [List.length_replicate]; omega)]
        rfl
      have hsub1 : ((((List.replicate C (none : Option (MinimumBoundingRegion R))).set 0
          (RSTNode.region hh n')).set 1 (some box))).getD 1 none = some box := by
        rw [List.getD_eq_getElem?_getD, List.getElem?_set_self (show (1 : ℕ) <
          ((List.replicate C (none : Option (MinimumBoundingRegion R))).set 0
            (RSTNode.region hh n')).length by
          rw [List.length_set, List.length_replicate]; omega)]
        rfl
      refine ⟨some ⟨hh + 1, (⟨2, expandBoxO (RSTNode.region hh n') box,
        ((List.replicate C none).set 0 (RSTNode.region hh n')).set 1 (some box),
        ((List.replicate C (none : Option (RSTNode R S hh))).set 0 (some n')).set 1
          (some sib)⟩ : RSTInternalNode R (RSTNode R S hh))⟩, ?_, ?_, ?_⟩
      · rw [tree_insert_some_unfold D C C root key value, hins, exceptOk_bind]
        rfl
      · show RSTNode.WF C C (hh + 1) (⟨2, expandBoxO (RSTNode.region hh n') box,
          ((List.replicate C none).set 0 (RSTNode.region hh n')).set 1 (some box),
          ((List.replicate C (none : Option (RSTNode R S hh))).set 0 (some n')).set 1
            (some sib)⟩ : RSTInternalNode R (RSTNode R S hh)) = true
        rw [RSTNode.WF]
        simp only [Bool.and_eq_true, decide_eq_true_eq, List.all_eq_true, List.mem_range]
        refine ⟨⟨⟨⟨show (1 : ℕ) ≤ 2 by omega, show (2 : ℕ) ≤ C by omega⟩,
          by rw [List.length_set, List.length_set, List.length_replicate]⟩,
          by rw [List.length_set, List.length_set, List.length_replicate]⟩, ?_⟩
        intro i hi
        have hi2 : i < 2 := hi
        by_cases hi0 : i = 0
        · subst hi0
          rw [hsub0, hch0]
          exact ⟨hreg, hWF'⟩
        · have hi1 : i = 1 := by omega
          subst hi1
          rw [hsub1, hch1]
          exact ⟨rfl, hsibWF⟩
      · show (RSTNode.entriesList (hh + 1) (⟨2, expandBoxO (RSTNode.region hh n') box,
          ((List.replicate C none).set 0 (RSTNode.region hh n')).set 1 (some box),
          ((List.replicate C (none : Option (RSTNode R S hh))).set 0 (some n')).set 1
            (some sib)⟩ : RSTInternalNode R (RSTNode R S hh)) :
            Multiset (MinimumBoundingRegion R × S)) =
          (RSTNode.entriesList hh root : Multiset _) +
            {(MinimumBoundingRegion.ofPoint key, value)}
        rw [show (RSTNode.entriesList (hh + 1) (⟨2,
            expandBoxO (RSTNode.region hh n') box,
            ((List.replicate C none).set 0 (RSTNode.region hh n')).set 1 (some box),
            ((List.replicate C (none : Option (RSTNode R S hh))).set 0 (some n')).set 1
              (some sib)⟩ : RSTInternalNode R (RSTNode R S hh)) :
            List (MinimumBoundingRegion R × S)) =
          (List.range 2).flatMap (fun i =>
            match (((List.replicate C (none : Option (RSTNode R S hh))).set 0
                (some n')).set 1 (some sib)).getD i none with
            | some c => RSTNode.entriesList hh c
            | none => []) from rfl]
        rw [show List.range 2 = [0, 1] from rfl]
        simp only [List.flatMap_cons, List.flatMap_nil, List.append_nil]
        rw [hch0, hch1, ← Multiset.coe_add]
        exact hsum

/-- Building a tree by a sequence of inserts starting from any well-formed
tree succeeds, yields a well-formed tree, and stores exactly the starting
entries plus one `(MBR(key), value)` entry per insert. -/
lemma foldl_insert_ok [LinearOrder S] (D : ℕ) (hD : 1 ≤ D) (hC : 2 ≤ C) :
    ∀ (ops : List (List R × S)) (t0 : RSTTree R S), RSTTree.WF C C t0 = true →
      ∃ t, ops.foldlM (fun t op => RSTTree.insert D C C t op.1 op.2) t0 =
          Except.ok t ∧
        RSTTree.WF C C t = true ∧
        RSTTree.entries t = RSTTree.entries t0 +
          ((ops.map (fun op => (MinimumBoundingRegion.ofPoint op.1, op.2)) :
            List (MinimumBoundingRegion R × S)) :
            Multiset (MinimumBoundingRegion R × S)) := by
  intro ops
  induction ops with
  | nil =>
    intro t0 hWF0
    refine ⟨t0, rfl, hWF0, ?_⟩
    rw [List.map_nil, Multiset.coe_nil, add_zero]
  | cons op rest ih =>
    intro t0 hWF0
    obtain ⟨t1, h1, hWF1, hent1⟩ := tree_insert_ok D hD hC op.1 op.2 t0 hWF0
    obtain ⟨t, hfold, hWFt, hentt⟩ := ih t1 hWF1
    refine ⟨t, ?_, hWFt, ?_⟩
    · rw [List.foldlM_cons, h1, exceptOk_bind]
      exact hfold
    · rw [hentt, hent1, List.map_cons, ← Multiset.cons_coe, add_assoc]
      congr 1

/-- `buildTree` from the empty tree: the result is well-formed and stores
exactly one `(MBR(point), value)` entry per insert. -/
lemma buildTree_ok [LinearOrder S] (D : ℕ) (hD : 1 ≤ D) (hC : 2 ≤ C)
    (ops : List (List R × S)) :
    ∃ t, buildTree D C C ops = Except.ok t ∧ RSTTree.WF C C t = true ∧
      RSTTree.entries t =
        ((ops.map (fun op => (MinimumBoundingRegion.ofPoint op.1, op.2)) :
          List (MinimumBoundingRegion R × S)) :
          Multiset (MinimumBoundingRegion R × S)) := by
  obtain ⟨t, hfold, hWFt, hentt⟩ := foldl_insert_ok D hD hC ops none rfl
  refine ⟨t, hfold, hWFt, ?_⟩
  rw [hentt]
  show (0 : Multiset (MinimumBoundingRegion R × S)) + _ = _
  rw [zero_add]

end InternalInsert

section ChooseSubtree

/-- The region stored in slot `i` of an internal node's subregion array (the
dimensionless box on a disengaged slot, unreachable at the use sites). -/
def RSTInternalNode.slotBox {α : Type} (n : RSTInternalNode R α) (i : ℕ) :
    MinimumBoundingRegion R :=
  (n.subregions.getD i none).getD ⟨[], []⟩

/-- The area enlargement slot `i`'s region needs to cover `key_mbr`
(RSTTree.cpp:391-394). -/
def RSTInternalNode.enlargement {α : Type} (n : RSTInternalNode R α)
    (key_mbr : MinimumBoundingRegion R) (i : ℕ) : R :=
  ((n.slotBox i).expandBox key_mbr).area - (n.slotBox i).area

/-- The original area of slot `i`'s region (RSTTree.cpp:391). -/
def RSTInternalNode.originalArea {α : Type} (n : RSTInternalNode R α) (i : ℕ) : R :=
  (n.slotBox i).area

/-- The insertion-tracker fold of `find_best_child_insertion`, abstracted over
the per-slot enlargement and area. -/
def bestFold (E A : ℕ → R) (k : ℕ) : ℕ × WithTop R × WithTop R :=
  (List.range k).foldl (fun st i =>
    if (E i : WithTop R) < st.2.1 ∨
        ((E i : WithTop R) = st.2.1 ∧ (A i : WithTop R) < st.2.2)
    then (i, ((E i : WithTop R), (A i : WithTop R))) else st) (0, (⊤, ⊤))

lemma foldl_congr_mem {α β : Type} {l : List α} {f g : β → α → β}
    (h : ∀ st a, a ∈ l → f st a = g st a) : ∀ st, l.foldl f st = l.foldl g st := by
  induction l with
  | nil => intro st; rfl
  | cons a as ih =>
    intro st
    rw [List.foldl_cons, List.foldl_cons, h st a (List.mem_cons_self _ _)]
    exact ih (fun st b hb => h st b (List.mem_cons_of_mem _ hb)) _

lemma bestFold_inv (E A : ℕ → R) : ∀ k, 1 ≤ k →
    (bestFold E A k).1 < k ∧
    (bestFold E A k).2 = ((E (bestFold E A k).1 : WithTop R),
      (A (bestFold E A k).1 : WithTop R)) ∧
    ∀ j, j < k → E (bestFold E A k).1 < E j ∨
      (E (bestFold E A k).1 = E j ∧
        (A (bestFold E A k).1 < A j ∨
          (A (bestFold E A k).1 = A j ∧ (bestFold E A k).1 ≤ j))) := by
  intro k
  induction k with
  | zero => omega
  | succ k ih =>
    intro _
    have hstep : bestFold E A (k + 1) =
        (if (E k : WithTop R) < (bestFold E A k).2.1 ∨
            ((E k : WithTop R) = (bestFold E A k).2.1 ∧
              (A k : WithTop R) < (bestFold E A k).2.2)
          then (k, ((E k : WithTop R), (A k : WithTop R))) else bestFold E A k) := by
      simp only [bestFold]
      rw [List.range_succ, List.foldl_append, List.foldl_cons, List.foldl_nil]
    by_cases hk1 : k = 0
    · subst hk1
      have h0 : bestFold E A 0 = (0, (⊤, ⊤)) := rfl
      rw [h0] at hstep
      rw [hstep, if_pos (Or.inl (WithTop.coe_lt_top _))]
      refine ⟨by omega, rfl, ?_⟩
      intro j hj
      have hj0 : j = 0 := by omega
      subst hj0
      exact Or.inr ⟨rfl, Or.inr ⟨rfl, le_refl _⟩⟩
    · obtain ⟨hlt, hval, hmin⟩ := ih (by omega)
      rw [hval] at hstep
      by_cases hcond : (E k : WithTop R) < (E (bestFold E A k).1 : WithTop R) ∨
          ((E k : WithTop R) = (E (bestFold E A k).1 : WithTop R) ∧
            (A k : WithTop R) < (A (bestFold E A k).1 : WithTop R))
      · rw [hstep, if_pos hcond]
        refine ⟨by omega, rfl, ?_⟩
        intro j hj
        rcases Nat.lt_succ_iff_lt_or_eq.mp hj with hjlt | hjeq
        · have hbj := hmin j hjlt
          rcases hcond with h | ⟨h, h2⟩
          · have hEk : E k < E (bestFold E A k).1 := WithTop.coe_lt_coe.mp h
            rcases hbj with hb | ⟨hb, -⟩
            · exact Or.inl (hEk.trans hb)
            · exact Or.inl (hb ▸ hEk)
          · have hEk : E k = E (bestFold E A k).1 := WithTop.coe_eq_coe.mp h
            have hAk : A k < A (bestFold E A k).1 := WithTop.coe_lt_coe.mp h2
            rcases hbj with hb | ⟨hb, hab⟩
            · exact Or.inl (hEk ▸ hb)
            · refine Or.inr ⟨hEk.trans hb, ?_⟩
              rcases hab with ha | ⟨ha, -⟩
              · exact Or.inl (hAk.trans ha)
              · exact Or.inl (ha ▸ hAk)
        · rw [hjeq]
          exact Or.inr ⟨rfl, Or.inr ⟨rfl, le_refl _⟩⟩
      · rw [hstep, if_neg hcond]
        refine ⟨by omega, hval, ?_⟩
        intro j hj
        rcases Nat.lt_succ_iff_lt_or_eq.mp hj with hjlt | hjeq
        · exact hmin j hjlt
        · rw [hjeq]
          push_neg at hcond
          obtain ⟨h1, h2⟩ := hcond
          have hEbk : E (bestFold E A k).1 ≤ E k := WithTop.coe_le_coe.mp h1
          rcases lt_or_eq_of_le hEbk with h | h
          · exact Or.inl h
          · refine Or.inr ⟨h, ?_⟩
            have h2' := h2 (by rw [h])
            have hAbk : A (bestFold E A k).1 ≤ A k := WithTop.coe_le_coe.mp h2'
            rcases lt_or_eq_of_le hAbk with ha | ha
            · exact Or.inl ha
            · exact Or.inr ⟨ha, by omega⟩

lemma find_best_child_eq_bestFold {α : Type} (n : RSTInternalNode R α)
    (key_mbr : MinimumBoundingRegion R)
    (hs : ∀ i, i < n.size → (n.subregions.getD i none).isSome) :
    n.find_best_child_insertion key_mbr =
      (bestFold (n.enlargement key_mbr) n.originalArea n.size).1 := by
  rw [RSTInternalNode.find_best_child_insertion, bestFold]
  congr 1
  refine foldl_congr_mem ?_ _
  intro st i hi
  rw [List.mem_range] at hi
  obtain ⟨b, hb⟩ := Option.isSome_iff_exists.mp (hs i hi)
  have hE : n.enlargement key_mbr i = (b.expandBox key_mbr).area - b.area := by
    rw [RSTInternalNode.enlargement, RSTInternalNode.slotBox, hb]
    rfl
  have hA : n.originalArea i = b.area := by
    rw [RSTInternalNode.originalArea, RSTInternalNode.slotBox, hb]
    rfl
  show (match n.subregions.getD i none with
    | none => st
    | some current =>
      let original_area := current.area
      let expanded := current.expandBox key_mbr
      let enlargement := expanded.area - original_area
      if (enlargement : WithTop R) < st.2.1 ∨
          ((enlargement : WithTop R) = st.2.1 ∧ (original_area : WithTop R) < st.2.2)
      then (i, ((enlargement : WithTop R), (original_area : WithTop R))) else st) =
    (if (n.enlargement key_mbr i : WithTop R) < st.2.1 ∨
        ((n.enlargement key_mbr i : WithTop R) = st.2.1 ∧
          (n.originalArea i : WithTop R) < st.2.2)
      then (i, ((n.enlargement key_mbr i : WithTop R),
        (n.originalArea i : WithTop R))) else st)
  rw [hb, hE, hA]

end ChooseSubtree

section SplitMembership

variable {V' : Type}

/-- One axis of `splitCandidates`: sort, then append this axis's evaluated
candidates.  Definitionally the step function of `splitCandidates`. -/
def candAxisStep (N' L' : ℕ)
    (st : List (SplitEntry R V') × List (ℕ × ℕ × R × R × R)) (axis : ℕ) :
    List (SplitEntry R V') × List (ℕ × ℕ × R × R × R) :=
  let sorted := sortByAxis axis st.1
  (sorted, st.2 ++ (splitPositions L' (MIN_SPLIT_COUNT N')).map (fun k =>
    let lower := unionBoxes ((sorted.take k).map SplitEntry.region)
    let upper := unionBoxes ((sorted.drop k).map SplitEntry.region)
    (axis, k, compute_overlap lower upper, compute_margin lower upper,
      compute_area lower upper)))

lemma splitCandidates_eq_fold (D N' L' : ℕ) (entries : List (SplitEntry R V')) :
    splitCandidates D N' L' entries =
      ((List.range D).foldl (candAxisStep N' L') (entries, [])).2 := rfl

/-- A strictly greater overlap never replaces the tracker (the true
short-circuit of RSTTree.cpp:205-224). -/
lemma considerCandidate_skip {axis k : ℕ} {lo up : MinimumBoundingRegion R}
    (t : SplitTracker R) (h : t.overlap < ((compute_overlap lo up : R) : WithTop R)) :
    considerCandidate axis k lo up t = t := by
  rw [considerCandidate]
  simp only []
  rw [if_pos h]

lemma considerCandidate_cases (axis k : ℕ) (lo up : MinimumBoundingRegion R)
    (t : SplitTracker R) :
    considerCandidate axis k lo up t = t ∨
    considerCandidate axis k lo up t =
      ⟨axis, k, ((compute_overlap lo up : R) : WithTop R),
        ((compute_margin lo up : R) : WithTop R), ((compute_area lo up : R) : WithTop R)⟩ := by
  rw [considerCandidate]
  simp only []
  split_ifs
  · exact Or.inl rfl
  · exact Or.inr rfl
  · exact Or.inr rfl
  · exact Or.inr rfl
  · exact Or.inl rfl

lemma foldPositions_mem (axis : ℕ) (sorted : List (SplitEntry R V')) :
    ∀ (ks : List ℕ) (t : SplitTracker R),
      ks.foldl (fun t k =>
        considerCandidate axis k (unionBoxes ((sorted.take k).map SplitEntry.region))
          (unionBoxes ((sorted.drop k).map SplitEntry.region)) t) t = t ∨
      ∃ k ∈ ks, ks.foldl (fun t k =>
        considerCandidate axis k (unionBoxes ((sorted.take k).map SplitEntry.region))
          (unionBoxes ((sorted.drop k).map SplitEntry.region)) t) t =
        ⟨axis, k,
          ((compute_overlap (unionBoxes ((sorted.take k).map SplitEntry.region))
            (unionBoxes ((sorted.drop k).map SplitEntry.region)) : R) : WithTop R),
          ((compute_margin (unionBoxes ((sorted.take k).map SplitEntry.region))
            (unionBoxes ((sorted.drop k).map SplitEntry.region)) : R) : WithTop R),
          ((compute_area (unionBoxes ((sorted.take k).map SplitEntry.region))
            (unionBoxes ((sorted.drop k).map SplitEntry.region)) : R) : WithTop R)⟩ := by
  intro ks
  induction ks with
  | nil => intro t; exact Or.inl rfl
  | cons k ks ih =>
    intro t
    rw [List.foldl_cons]
    rcases considerCandidate_cases axis k
        (unionBoxes ((sorted.take k).map SplitEntry.region))
        (unionBoxes ((sorted.drop k).map SplitEntry.region)) t with hc | hc
    · rw [hc]
      rcases ih t with h | ⟨k', hk', h⟩
      · exact Or.inl h
      · exact Or.inr ⟨k', List.mem_cons_of_mem _ hk', h⟩
    · rw [hc]
      rcases ih ⟨axis, k, _, _, _⟩ with h | ⟨k', hk', h⟩
      · rw [h]
        exact Or.inr ⟨k, List.mem_cons_self _ _, rfl⟩
      · exact Or.inr ⟨k', List.mem_cons_of_mem _ hk', h⟩

lemma foldAxes_mem (N' L' : ℕ) :
    ∀ (axes : List ℕ) (es : List (SplitEntry R V')) (t : SplitTracker R)
      (acc : List (ℕ × ℕ × R × R × R)),
      (t.overlap = ⊤ ∨ ∃ (ax k : ℕ) (o m a : R), t = ⟨ax, k, (o : WithTop R),
        (m : WithTop R), (a : WithTop R)⟩ ∧ (ax, k, o, m, a) ∈ acc) →
      (axes.foldl (axisStep N' L') (es, t)).1 =
        (axes.foldl (candAxisStep N' L') (es, acc)).1 ∧
      ((axes.foldl (axisStep N' L') (es, t)).2.overlap = ⊤ ∨
        ∃ (ax k : ℕ) (o m a : R), (axes.foldl (axisStep N' L') (es, t)).2 =
          ⟨ax, k, (o : WithTop R), (m : WithTop R), (a : WithTop R)⟩ ∧
          (ax, k, o, m, a) ∈ (axes.foldl (candAxisStep N' L') (es, acc)).2) := by
  intro axes
  induction axes with
  | nil => intro es t acc h; exact ⟨rfl, h⟩
  | cons a rest ih =>
    intro es t acc h
    rw [List.foldl_cons, List.foldl_cons]
    have hstep1 : axisStep N' L' (es, t) a = (sortByAxis a es,
        (splitPositions L' (MIN_SPLIT_COUNT N')).foldl (fun t k =>
          considerCandidate a k
            (unionBoxes (((sortByAxis a es).take k).map SplitEntry.region))
            (unionBoxes (((sortByAxis a es).drop k).map SplitEntry.region)) t) t) := rfl
    have hstep2 : candAxisStep N' L' (es, acc) a = (sortByAxis a es,
        acc ++ (splitPositions L' (MIN_SPLIT_COUNT N')).map (fun k =>
          (a, k,
            compute_overlap (unionBoxes (((sortByAxis a es).take k).map SplitEntry.region))
              (unionBoxes (((sortByAxis a es).drop k).map SplitEntry.region)),
            compute_margin (unionBoxes (((sortByAxis a es).take k).map SplitEntry.region))
              (unionBoxes (((sortByAxis a es).drop k).map SplitEntry.region)),
            compute_area (unionBoxes (((sortByAxis a es).take k).map SplitEntry.region))
              (unionBoxes (((sortByAxis a es).drop k).map SplitEntry.region))))) := rfl
    rw [hstep1, hstep2]
    refine ih _ _ _ ?_
    rcases foldPositions_mem a (sortByAxis a es)
        (splitPositions L' (MIN_SPLIT_COUNT N')) t with hf | ⟨k, hk, hf⟩
    · rw [hf]
      rcases h with h | ⟨ax, k, o, m, a', ht, hmem⟩
      · exact Or.inl h
      · exact Or.inr ⟨ax, k, o, m, a', ht, List.mem_append_left _ hmem⟩
    · rw [hf]
      refine Or.inr ⟨a, k, _, _, _, rfl, List.mem_append_right _ ?_⟩
      exact List.mem_map.mpr ⟨k, hk, rfl⟩

/-- Amended split-choice guarantee: `find_best_split` succeeds, returns the
entries as a permutation, picks an evaluated split position, and its tracker
is one of the honestly evaluated candidates of `splitCandidates` (it need not
minimise the `(overlap, margin, area)` triple lexicographically); a candidate
with strictly greater overlap than the tracker never replaces it. -/
lemma find_best_split_mem (D N' L' : ℕ) (hD : 1 ≤ D)
    (hpos : splitPositions L' (MIN_SPLIT_COUNT N') ≠ [])
    (entries : List (SplitEntry R V')) :
    ∃ tr fin, RSTLeafNode.find_best_split D N' L' entries = Except.ok (tr, fin) ∧
      fin.Perm entries ∧ tr.location ∈ splitPositions L' (MIN_SPLIT_COUNT N') ∧
      ∃ (o m a : R), tr.overlap = (o : WithTop R) ∧ tr.margin = (m : WithTop R) ∧
        tr.area = (a : WithTop R) ∧
        (tr.axis, tr.location, o, m, a) ∈ splitCandidates D N' L' entries := by
  have hfold : (List.range D).foldl (fun st axis =>
      let sorted := sortByAxis (V := V') axis st.1
      let tr := (splitPositions L' (MIN_SPLIT_COUNT N')).foldl (fun t k =>
        considerCandidate axis k (unionBoxes ((sorted.take k).map SplitEntry.region))
          (unionBoxes ((sorted.drop k).map SplitEntry.region)) t) st.2
      (sorted, tr)) (entries, {}) =
      (List.range D).foldl (axisStep N' L') (entries, {}) := rfl
  obtain ⟨hp, _, h3⟩ := foldAxes_inv N' L' hpos entries (List.range D)
    (entries, {}) (List.Perm.refl _) (Or.inl rfl)
  have hne : List.range D ≠ [] := by
    cases D with
    | zero => omega
    | succ d => simp [List.range_succ]
  obtain ⟨hov, hloc⟩ := h3 hne
  obtain ⟨-, hmem⟩ := foldAxes_mem N' L' (List.range D) entries {} [] (Or.inl rfl)
  rcases hmem with hbad | ⟨ax, k, o, m, a, ht, hmem⟩
  · exact absurd hbad hov
  · rw [RSTLeafNode.find_best_split]
    simp only [hfold]
    rw [if_neg hov]
    refine ⟨_, _, rfl, hp, hloc, o, m, a, ?_, ?_, ?_, ?_⟩
    · rw [ht]
    · rw [ht]
    · rw [ht]
    · rw [splitCandidates_eq_fold]
      rw [ht]
      exact hmem

end SplitMembership

section QueryTopK

variable [LinearOrder S]

lemma heapInv_topk {k : ℕ} {P : Multiset (R × S)} {heap : List (R × S)}
    (h : heapInv k P heap) : IsTopK k P ((heap.map Prod.snd).reverse) := by
  obtain ⟨hsort, hlen, excl, hP, hdom⟩ := h
  refine ⟨heap.reverse, ?_, ?_, ?_, excl, ?_, ?_⟩
  · rw [List.map_reverse]
  · have hrev : heap.reverse.Pairwise (fun a b : R × S => pairLe a b) :=
      List.pairwise_reverse.mpr hsort
    exact List.Pairwise.imp pairLe_fst hrev
  · rw [List.length_reverse, hlen]
  · rw [show ((heap.reverse : List (R × S)) : Multiset (R × S)) =
      (heap : Multiset (R × S)) from Multiset.coe_eq_coe.mpr (List.reverse_perm heap)]
    exact hP
  · intro c hc x hx
    rw [List.mem_reverse] at hx
    exact hdom c hc x hx

/-- `RSTTree::query_with_filter` on a well-formed tree with `max ≥ 1` returns
the `min(max, |F|)` filter-passing stored entries of least stored-point
distance, weakly ascending (the bounded max-heap semantics). -/
lemma query_with_filter_ok {N L : ℕ} (k : ℕ) (hk : 1 ≤ k) (key : List R)
    (filter : S → Bool) (t : RSTTree R S) (hWF : RSTTree.WF N L t = true) :
    ∃ out, RSTTree.query_with_filter t key k filter = Except.ok out ∧
      IsTopK k (Multiset.map (fun e => (distToMin key e.1, e.2))
        (Multiset.filter (fun e => filter e.2 = true) (RSTTree.entries t))) out := by
  match t with
  | none =>
    refine ⟨[], rfl, [], rfl, List.sorted_nil, ?_, 0, ?_, ?_⟩
    · show [].length = Min.min k (Multiset.card (Multiset.map _ (Multiset.filter _ 0)))
      simp
    · rw [show RSTTree.entries (none : RSTTree R S) = 0 from rfl]
      simp
    · intro c hc
      simp at hc
  | some ⟨h, root⟩ =>
    have hWFn : RSTNode.WF N L h root = true := hWF
    obtain ⟨out, hfold, hinv⟩ := foldlM_queryStep_inv hk
      (RSTNode.candList h root key filter) [] 0 (heapInv_empty k)
    rw [zero_add] at hinv
    refine ⟨(out.map Prod.snd).reverse, ?_, ?_⟩
    · show (RSTNode.query h root key k [] filter).bind
        (fun result => Except.ok ((result.map Prod.snd).reverse)) = _
      rw [node_query_eq_foldlM, hfold]
      rfl
    · have htop := heapInv_topk hinv
      rw [coe_candList_eq key filter h root hWFn] at htop
      exact htop

end QueryTopK

section ClaimSupport

lemma filterCandidates_eq [LinearOrder S] (key : List R) (filter : S → Bool)
    (ops : List (List R × S)) :
    ((filterCandidates filter (pointDistSq key) ops : List (R × S)) :
      Multiset (R × S)) =
      Multiset.map (fun e => (distToMin key e.1, e.2))
        (Multiset.filter (fun e => filter e.2 = true)
          ((ops.map (fun op => (MinimumBoundingRegion.ofPoint op.1, op.2)) :
            List (MinimumBoundingRegion R × S)) :
            Multiset (MinimumBoundingRegion R × S))) := by
  rw [Multiset.filter_coe, Multiset.map_coe]
  congr 1
  rw [filterCandidates, List.filter_map, List.map_map,
    List.filter_congr (fun (op : List R × S) _ =>
      show ((fun (b : MinimumBoundingRegion R × S) => decide (filter b.2 = true)) ∘
          (fun (op : List R × S) =>
            (MinimumBoundingRegion.ofPoint op.1, op.2))) op = filter op.2 from by
        show decide (filter op.2 = true) = filter op.2
        cases filter op.2 <;> rfl)]
  rfl

/-- The payloads are the entry multiset's second components. -/
lemma payloads_eq_map_entries (t : RSTTree R S) :
    RSTTree.payloads t = Multiset.map Prod.snd (RSTTree.entries t) := by
  match t with
  | none => rfl
  | some ⟨h, root⟩ =>
    rw [show RSTTree.payloads (some ⟨h, root⟩) =
        (((RSTNode.entriesList h root).map Prod.snd : List S) : Multiset S) from rfl,
      show RSTTree.entries (some ⟨h, root⟩) =
        ((RSTNode.entriesList h root : List (MinimumBoundingRegion R × S)) :
          Multiset (MinimumBoundingRegion R × S)) from rfl,
      Multiset.map_coe]

/-- `RSTLeafNode::pack_entries` fails with the invariant error as soon as it
meets a slot pair with a disengaged side (the `throw` at RSTTree.cpp:176-179);
`i` is the first such slot. -/
lemma leaf_pack_entries_err (N' : ℕ) (subs : List (Option (MinimumBoundingRegion R)))
    (cs : List (Option S)) (key : List R) (value : S) (i : ℕ) (hi : i < N')
    (hbad : ¬((subs.getD i none).isSome = true ∧ (cs.getD i none).isSome = true))
    (hgood : ∀ j, j < i → (subs.getD j none).isSome ∧ (cs.getD j none).isSome) :
    RSTLeafNode.pack_entries N' subs cs key value =
      Except.error "Corrupt node: missing subregion/child..." := by
  rw [RSTLeafNode.pack_entries]
  rw [show N' = i + (N' - i) from by omega, List.range_add, List.foldlM_append,
    leaf_pack_fold_ok subs cs i hgood []]
  rw [exceptOk_bind]
  rw [show N' - i = (N' - i - 1) + 1 from by omega, List.range_succ_eq_map,
    List.map_cons, List.foldlM_cons]
  have hstep : (match subs.getD (i + 0) none, cs.getD (i + 0) none with
      | some r, some c => Except.ok (([] ++ (List.range i).filterMap (fun j =>
          match subs.getD j none, cs.getD j none with
          | some r, some c => some ((⟨r, c⟩ : SplitEntry R S))
          | _, _ => none)) ++ [(⟨r, c⟩ : SplitEntry R S)])
      | _, _ => Except.error "Corrupt node: missing subregion/child...") =
      Except.error "Corrupt node: missing subregion/child..." := by
    rw [show i + 0 = i from rfl]
    cases hsub : subs.getD i none with
    | none => rfl
    | some r =>
      cases hch : cs.getD i none with
      | none => rfl
      | some c =>
        exact absurd ⟨by rw [hsub]; rfl, by rw [hch]; rfl⟩ hbad
  rw [hstep, exceptError_bind, exceptError_bind]

end ClaimSupport

section Claims

deriving instance DecidableEq for Except


/-- C2: after every finite sequence of inserts (with at least one split axis
and a capacity of at least two), the multiset of payloads reachable by
exhaustive traversal from the root equals the multiset of inserted values: no
payload is lost or duplicated by absorb, split, or root promotion. -/
theorem C2_payloads_complete [LinearOrder S] (D C : ℕ) (hD : 1 ≤ D) (hC : 2 ≤ C)
    (ops : List (List R × S)) :
    ∃ t, buildTree D C C ops = Except.ok t ∧
      RSTTree.payloads t = ((ops.map Prod.snd : List S) : Multiset S) := by
  obtain ⟨t, hb, hWF, hent⟩ := buildTree_ok D hD hC ops
  refine ⟨t, hb, ?_⟩
  rw [payloads_eq_map_entries, hent, Multiset.map_coe, List.map_map]
  rfl

theorem C2_witness : (1 : ℕ) ≤ 1 ∧ (2 : ℕ) ≤ 2 ∧
    ∃ t, buildTree 1 2 2 ([([0], 10), ([5], 20), ([3], 30)] : List (List ℤ × ℤ)) =
        Except.ok t ∧
      RSTTree.payloads t =
        ((([([0], 10), ([5], 20), ([3], 30)] : List (List ℤ × ℤ)).map Prod.snd :
          List ℤ) : Multiset ℤ) :=
  ⟨le_refl 1, by decide,
    C2_payloads_complete 1 2 (le_refl 1) (by decide)
      ([([0], 10), ([5], 20), ([3], 30)] : List (List ℤ × ℤ))⟩

/-- C5: after every sequence of inserts every node's `size` is within its
capacity, and whenever an insert overflows a node into a split, both resulting
halves hold at least `MIN_SPLIT_COUNT = max(⌊0.25·N⌋, 1)` entries. -/
theorem C5_capacity_min_fill [LinearOrder S] (D C : ℕ) (hD : 1 ≤ D) (hC : 2 ≤ C) :
    (∀ ops : List (List R × S), ∃ t, buildTree D C C ops = Except.ok t ∧
      RSTTree.sizesWithinCapacity C C t = true) ∧
    (∀ (h : ℕ) (n : RSTNode R S h) (key : List R) (value : S)
      (n' : RSTNode R S h) (box : MinimumBoundingRegion R) (sib : RSTNode R S h),
      RSTNode.WF C C h n = true →
      RSTNode.insert D C C h n key value = Except.ok (n', some (box, sib)) →
      MIN_SPLIT_COUNT C ≤ RSTNode.size h n' ∧
        MIN_SPLIT_COUNT C ≤ RSTNode.size h sib) := by
  constructor
  · intro ops
    obtain ⟨t, hb, hWF, -⟩ := buildTree_ok D hD hC ops
    exact ⟨t, hb, tree_wf_sizesWithinCapacity t hWF⟩
  · intro h n key value n' box sib hWF heq
    obtain ⟨n₂, sp₂, heq₂, -, -, hsome⟩ := insert_ok D hD hC key value h n hWF
    rw [heq] at heq₂
    injection heq₂ with hpair
    injection hpair with h1 h2
    subst h1
    subst h2
    obtain ⟨-, -, hm1, hm2, -⟩ := hsome box sib rfl
    exact ⟨hm1, hm2⟩

theorem C5_witness : (1 : ℕ) ≤ 1 ∧ (2 : ℕ) ≤ 2 ∧
    ((∀ ops : List (List ℤ × ℤ), ∃ t, buildTree 1 2 2 ops = Except.ok t ∧
      RSTTree.sizesWithinCapacity 2 2 t = true) ∧
    (∀ (h : ℕ) (n : RSTNode ℤ ℤ h) (key : List ℤ) (value : ℤ)
      (n' : RSTNode ℤ ℤ h) (box : MinimumBoundingRegion ℤ) (sib : RSTNode ℤ ℤ h),
      RSTNode.WF 2 2 h n = true →
      RSTNode.insert 1 2 2 h n key value = Except.ok (n', some (box, sib)) →
      MIN_SPLIT_COUNT 2 ≤ RSTNode.size h n' ∧
        MIN_SPLIT_COUNT 2 ≤ RSTNode.size h sib)) :=
  ⟨le_refl 1, by decide,
    C5_capacity_min_fill (R := ℤ) (S := ℤ) 1 2 (le_refl 1) (by decide)⟩

/-- C6: on insert into an internal node whose first `size` subregion slots are
engaged, the child recursed into is the one of least area enlargement towards
the key's degenerate MBR, ties broken by smaller original area, remaining ties
by insertion order (the lowest index wins). -/
theorem C6_choose_subtree {α : Type} (n : RSTInternalNode R α)
    (key_mbr : MinimumBoundingRegion R) (hpos : 1 ≤ n.size)
    (hs : ∀ i, i < n.size → (n.subregions.getD i none).isSome = true) :
    n.find_best_child_insertion key_mbr < n.size ∧
    ∀ j, j < n.size →
      n.enlargement key_mbr (n.find_best_child_insertion key_mbr) <
          n.enlargement key_mbr j ∨
        (n.enlargement key_mbr (n.find_best_child_insertion key_mbr) =
            n.enlargement key_mbr j ∧
          (n.originalArea (n.find_best_child_insertion key_mbr) < n.originalArea j ∨
            (n.originalArea (n.find_best_child_insertion key_mbr) = n.originalArea j ∧
              n.find_best_child_insertion key_mbr ≤ j))) := by
  have heq := find_best_child_eq_bestFold n key_mbr hs
  obtain ⟨h1, -, h3⟩ := bestFold_inv (n.enlargement key_mbr) n.originalArea n.size hpos
  rw [heq]
  exact ⟨h1, h3⟩

theorem C6_witness :
    1 ≤ RSTInternalNode.size (⟨2, none, [some ⟨[0], [1]⟩, some ⟨[5], [6]⟩],
        [some 1, some 2]⟩ : RSTInternalNode ℤ ℤ) ∧
    (∀ i, i < RSTInternalNode.size (⟨2, none, [some ⟨[0], [1]⟩, some ⟨[5], [6]⟩],
        [some 1, some 2]⟩ : RSTInternalNode ℤ ℤ) →
      ((⟨2, none, [some ⟨[0], [1]⟩, some ⟨[5], [6]⟩], [some 1, some 2]⟩ :
        RSTInternalNode ℤ ℤ).subregions.getD i none).isSome = true) ∧
    ((⟨2, none, [some ⟨[0], [1]⟩, some ⟨[5], [6]⟩], [some 1, some 2]⟩ :
        RSTInternalNode ℤ ℤ).find_best_child_insertion
        (MinimumBoundingRegion.ofPoint [4]) <
      RSTInternalNode.size (⟨2, none, [some ⟨[0], [1]⟩, some ⟨[5], [6]⟩],
        [some 1, some 2]⟩ : RSTInternalNode ℤ ℤ)) :=
  ⟨by decide, by decide,
    (C6_choose_subtree (⟨2, none, [some ⟨[0], [1]⟩, some ⟨[5], [6]⟩],
      [some 1, some 2]⟩ : RSTInternalNode ℤ ℤ)
      (MinimumBoundingRegion.ofPoint [4]) (by decide) (by decide)).1⟩

/-- C7: the source's claim that a `max = 0` query returns an empty sequence is
false on a non-empty tree: the bounded-heap update calls `result.top()` on an
empty `std::priority_queue` (undefined behaviour, surfaced as the modelled
error), while the empty tree does return the empty sequence. -/
theorem C7_query_k0_bug :
    (buildTree 1 2 2 ([([0], 5)] : List (List ℤ × ℤ))).bind
      (fun t => RSTTree.query_with_filter t [0] 0 (fun _ => true)) =
      Except.error "top() on empty result heap" ∧
    RSTTree.query_with_filter (none : RSTTree ℤ ℤ) [0] 0 (fun _ => true) =
      Except.ok [] := by decide

/-- C8: on leaf overflow the working array holds exactly `N + 1` split
entries, and for each axis `find_best_split` evaluates exactly the positions
`m ≤ k < L + 1 − m` — the upper bound is exclusive, not the claimed inclusive
`k ≤ L + 1 − m`. -/
theorem C8_overflow_positions (N' : ℕ)
    (subs : List (Option (MinimumBoundingRegion R))) (cs : List (Option S))
    (key : List R) (value : S)
    (hs : ∀ i, i < N' → (subs.getD i none).isSome ∧ (cs.getD i none).isSome) :
    (∃ es, RSTLeafNode.pack_entries N' subs cs key value = Except.ok es ∧
      es.length = N' + 1) ∧
    ∀ (L' m k : ℕ), k ∈ splitPositions L' m ↔ m ≤ k ∧ k < L' + 1 - m := by
  constructor
  · refine ⟨_, leaf_pack_entries_ok N' subs cs key value hs, ?_⟩
    rw [List.length_append, length_filterMap_of_some, List.length_range]
    · rfl
    · intro i hi
      rw [List.mem_range] at hi
      obtain ⟨h1, h2⟩ := hs i hi
      obtain ⟨b, hb⟩ := Option.isSome_iff_exists.mp h1
      obtain ⟨v, hv⟩ := Option.isSome_iff_exists.mp h2
      rw [hb, hv]
      rfl
  · intro L' m k
    rw [mem_splitPositions]
    omega

theorem C8_witness :
    (∀ i, i < 1 → (([some ⟨[0], [1]⟩] :
        List (Option (MinimumBoundingRegion ℤ))).getD i none).isSome ∧
      (([some 3] : List (Option ℤ)).getD i none).isSome) ∧
    ((∃ es, RSTLeafNode.pack_entries 1
        ([some ⟨[0], [1]⟩] : List (Option (MinimumBoundingRegion ℤ)))
        ([some 3] : List (Option ℤ)) [2] (4 : ℤ) =
        Except.ok es ∧ es.length = 1 + 1) ∧
      ∀ (L' m k : ℕ), k ∈ splitPositions L' m ↔ m ≤ k ∧ k < L' + 1 - m) :=
  ⟨by decide,
    C8_overflow_positions 1
      ([some ⟨[0], [1]⟩] : List (Option (MinimumBoundingRegion ℤ)))
      ([some 3] : List (Option ℤ)) [2] (4 : ℤ) (by decide)⟩

theorem C8_counterexample :
    MIN_SPLIT_COUNT 4 ≤ 4 ∧ (4 : ℕ) ≤ 4 + 1 - MIN_SPLIT_COUNT 4 ∧
    (4 : ℕ) ∉ splitPositions 4 (MIN_SPLIT_COUNT 4) ∧
    splitPositions 4 (MIN_SPLIT_COUNT 4) = [1, 2, 3] := by decide

/-- C9: during split-entry packing only the leaf packer checks its source
entries: a leaf slot pair with a disengaged subregion or payload fails with
the invariant error, while the internal packer packs a missing (null) child
as-is and succeeds whenever the subregions are engaged. -/
theorem C9_pack_corruption :
    (∀ (N' : ℕ) (subs : List (Option (MinimumBoundingRegion R)))
      (cs : List (Option S)) (key : List R) (value : S) (i : ℕ), i < N' →
      ¬((subs.getD i none).isSome = true ∧ (cs.getD i none).isSome = true) →
      (∀ j, j < i → (subs.getD j none).isSome ∧ (cs.getD j none).isSome) →
      RSTLeafNode.pack_entries N' subs cs key value =
        Except.error "Corrupt node: missing subregion/child...") ∧
    (∀ (α : Type) (N' : ℕ) (subs : List (Option (MinimumBoundingRegion R)))
      (cs : List (Option α)) (box : MinimumBoundingRegion R) (sib : α),
      (∀ i, i < N' → (subs.getD i none).isSome) →
      RSTInternalNode.pack_entries N' subs cs box sib = Except.ok
        ((List.range N').filterMap (fun i =>
          (subs.getD i none).map (fun r =>
            (⟨r, cs.getD i none⟩ : SplitEntry R (Option α)))) ++
          [⟨box, some sib⟩])) :=
  ⟨fun N' subs cs key value i hi hbad hgood =>
    leaf_pack_entries_err N' subs cs key value i hi hbad hgood,
   fun α N' subs cs box sib hs =>
    internal_pack_entries_ok N' subs cs box sib hs⟩

theorem C9_witness :
    RSTLeafNode.pack_entries 2
      ([some ⟨[0], [1]⟩, none] : List (Option (MinimumBoundingRegion ℤ)))
      ([some 5, some 6] : List (Option ℤ)) [0] (7 : ℤ) =
      Except.error "Corrupt node: missing subregion/child..." :=
  (C9_pack_corruption (R := ℤ) (S := ℤ)).1 2
    ([some ⟨[0], [1]⟩, none] : List (Option (MinimumBoundingRegion ℤ)))
    ([some 5, some 6] : List (Option ℤ)) [0] 7 1 (by decide) (by decide) (by decide)

theorem C9_counterexample :
    RSTInternalNode.pack_entries 2 [some ⟨[0], [1]⟩, some ⟨[2], [3]⟩]
      [some 7, (none : Option ℕ)] (⟨[4], [5]⟩ : MinimumBoundingRegion ℤ) 9 =
      Except.ok [⟨⟨[0], [1]⟩, some 7⟩, ⟨⟨[2], [3]⟩, none⟩, ⟨⟨[4], [5]⟩, some 9⟩] := by
  decide

/-- C10: inserting into a leaf with room writes only slot `size` (its
subregion becomes the key's degenerate MBR and its payload the value),
increments `size`, expands the node region by the key, leaves every other
slot unchanged, and returns no split. -/
theorem C10_leaf_insert_frame (D N L : ℕ) (l : RSTLeafNode R S) (key : List R)
    (value : S) (hlt : l.size < L) (hsub : l.subregions.length = L)
    (hch : l.children.length = L) :
    ∃ l', RSTLeafNode.insert D N L l key value = Except.ok (l', none) ∧
      l'.size = l.size + 1 ∧
      l'.region = expandPointO l.region key ∧
      l'.subregions.getD l.size none = some (MinimumBoundingRegion.ofPoint key) ∧
      l'.children.getD l.size none = some value ∧
      ∀ i, i ≠ l.size →
        l'.subregions.getD i none = l.subregions.getD i none ∧
        l'.children.getD i none = l.children.getD i none := by
  refine ⟨(⟨l.size + 1, expandPointO l.region key,
    l.subregions.set l.size (some (MinimumBoundingRegion.ofPoint key)),
    l.children.set l.size (some value)⟩ : RSTLeafNode R S),
    by rw [RSTLeafNode.insert, if_pos (by omega : l.size ≠ L)], rfl, rfl, ?_, ?_, ?_⟩
  · show (l.subregions.set l.size (some (MinimumBoundingRegion.ofPoint key))).getD
      l.size none = some (MinimumBoundingRegion.ofPoint key)
    rw [List.getD_eq_getElem?_getD,
      List.getElem?_set_self (show l.size < l.subregions.length by omega)]
    rfl
  · show (l.children.set l.size (some value)).getD l.size none = some value
    rw [List.getD_eq_getElem?_getD,
      List.getElem?_set_self (show l.size < l.children.length by omega)]
    rfl
  · intro i hi
    constructor
    · show (l.subregions.set l.size (some (MinimumBoundingRegion.ofPoint key))).getD
        i none = l.subregions.getD i none
      rw [List.getD_eq_getElem?_getD, List.getD_eq_getElem?_getD,
        List.getElem?_set_ne (Ne.symm hi)]
    · show (l.children.set l.size (some value)).getD i none =
        l.children.getD i none
      rw [List.getD_eq_getElem?_getD, List.getD_eq_getElem?_getD,
        List.getElem?_set_ne (Ne.symm hi)]

theorem C10_witness :
    RSTLeafNode.size (⟨1, some ⟨[0], [0]⟩, [some ⟨[0], [0]⟩, none],
        [some 5, none]⟩ : RSTLeafNode ℤ ℤ) < 2 ∧
    (∃ l', RSTLeafNode.insert 1 2 2 (⟨1, some ⟨[0], [0]⟩, [some ⟨[0], [0]⟩, none],
        [some 5, none]⟩ : RSTLeafNode ℤ ℤ) [2] 6 = Except.ok (l', none) ∧
      l'.size = RSTLeafNode.size (⟨1, some ⟨[0], [0]⟩, [some ⟨[0], [0]⟩, none],
        [some 5, none]⟩ : RSTLeafNode ℤ ℤ) + 1 ∧
      l'.region = expandPointO (some ⟨[0], [0]⟩) [2] ∧
      l'.subregions.getD 1 none = some (MinimumBoundingRegion.ofPoint [2]) ∧
      l'.children.getD 1 none = some 6 ∧
      ∀ i, i ≠ 1 →
        l'.subregions.getD i none =
          ([some ⟨[0], [0]⟩, none] :
            List (Option (MinimumBoundingRegion ℤ))).getD i none ∧
        l'.children.getD i none =
          ([some 5, none] : List (Option ℤ)).getD i none) :=
  ⟨by decide,
    C10_leaf_insert_frame 1 2 2 (⟨1, some ⟨[0], [0]⟩, [some ⟨[0], [0]⟩, none],
      [some 5, none]⟩ : RSTLeafNode ℤ ℤ) [2] 6 (by decide) (by decide) (by decide)⟩

/-- C1: amended — `query_with_filter` takes no scale parameter in the source,
so for every insert sequence, key, `k ≥ 1` and filter it returns the
`min(k, |F|)` filter-passing inserted points of minimum UNSCALED squared
distance to the key, ordered weakly ascending by that distance (`F` the
filter-passing inserted points); the claimed scaled metric is refuted by
`C1_counterexample`. -/
theorem C1_query_returns_unscaled_topk [LinearOrder S] (D C : ℕ) (hD : 1 ≤ D)
    (hC : 2 ≤ C) (ops : List (List R × S)) (key : List R) (k : ℕ) (hk : 1 ≤ k)
    (filter : S → Bool) :
    ∃ t out, buildTree D C C ops = Except.ok t ∧
      RSTTree.query_with_filter t key k filter = Except.ok out ∧
      IsTopK k ((filterCandidates filter (pointDistSq key) ops : List (R × S)) :
        Multiset (R × S)) out := by
  obtain ⟨t, hb, hWF, hent⟩ := buildTree_ok D hD hC ops
  obtain ⟨out, hq, htop⟩ := query_with_filter_ok k hk key filter t hWF
  refine ⟨t, out, hb, hq, ?_⟩
  rw [filterCandidates_eq, ← hent]
  exact htop

theorem C1_witness : (1 : ℕ) ≤ 1 ∧ (2 : ℕ) ≤ 2 ∧ (1 : ℕ) ≤ 1 ∧
    (∃ t out, buildTree 1 2 2 ([([0], 1), ([2], 2)] : List (List ℤ × ℤ)) =
        Except.ok t ∧
      RSTTree.query_with_filter t [0] 1 (fun _ => true) = Except.ok out ∧
      IsTopK 1 ((filterCandidates (fun _ => true) (pointDistSq [0])
        ([([0], 1), ([2], 2)] : List (List ℤ × ℤ)) : List (ℤ × ℤ)) :
        Multiset (ℤ × ℤ)) out) :=
  ⟨le_refl 1, by decide, le_refl 1,
    C1_query_returns_unscaled_topk 1 2 (le_refl 1) (by decide)
      ([([0], 1), ([2], 2)] : List (List ℤ × ℤ)) [0] 1 (le_refl 1) (fun _ => true)⟩

theorem C1_counterexample :
    (buildTree 2 2 2 ([([0, 4], 1), ([3, 0], 2)] : List (List ℤ × ℤ))).bind
      (fun t => RSTTree.query_with_filter t [0, 0] 1 (fun _ => true)) =
      Except.ok [2] ∧
    scaledDistSq ([10, 1] : List ℤ) [0, 0] [0, 4] <
      scaledDistSq ([10, 1] : List ℤ) [0, 0] [3, 0] := by decide

/-- C3: amended — `find_best_split` succeeds, keeps the entries as a
permutation, returns an evaluated split position, and its tracker is one of
the honestly evaluated `splitCandidates` (axis, position, overlap, margin,
area) tuples, and a candidate with strictly greater overlap than the tracker
never replaces it; but the returned pair need not minimise
`(overlap, margin)` lexicographically — an equal-overlap candidate with
strictly greater margin is taken when its area is smaller (refuted by
`C3_counterexample`). -/
theorem C3_split_choice (V' : Type) (D N' L' : ℕ) (hD : 1 ≤ D)
    (hpos : splitPositions L' (MIN_SPLIT_COUNT N') ≠ [])
    (entries : List (SplitEntry R V')) :
    (∃ tr fin, RSTLeafNode.find_best_split D N' L' entries = Except.ok (tr, fin) ∧
      fin.Perm entries ∧ tr.location ∈ splitPositions L' (MIN_SPLIT_COUNT N') ∧
      ∃ (o m a : R), tr.overlap = (o : WithTop R) ∧ tr.margin = (m : WithTop R) ∧
        tr.area = (a : WithTop R) ∧
        (tr.axis, tr.location, o, m, a) ∈ splitCandidates D N' L' entries) ∧
    (∀ (axis k : ℕ) (lo up : MinimumBoundingRegion R) (t : SplitTracker R),
      t.overlap < ((compute_overlap lo up : R) : WithTop R) →
      considerCandidate axis k lo up t = t) :=
  ⟨find_best_split_mem D N' L' hD hpos entries,
   fun _ _ lo up t h => considerCandidate_skip t h⟩

theorem C3_witness :
    (1 : ℕ) ≤ 1 ∧ splitPositions 4 (MIN_SPLIT_COUNT 4) ≠ [] ∧
    ((∃ tr fin, RSTLeafNode.find_best_split 1 4 4
        ([⟨⟨[0], [1]⟩, 1⟩] : List (SplitEntry ℤ ℤ)) = Except.ok (tr, fin) ∧
      fin.Perm ([⟨⟨[0], [1]⟩, 1⟩] : List (SplitEntry ℤ ℤ)) ∧
      tr.location ∈ splitPositions 4 (MIN_SPLIT_COUNT 4) ∧
      ∃ (o m a : ℤ), tr.overlap = (o : WithTop ℤ) ∧ tr.margin = (m : WithTop ℤ) ∧
        tr.area = (a : WithTop ℤ) ∧
        (tr.axis, tr.location, o, m, a) ∈ splitCandidates 1 4 4
          ([⟨⟨[0], [1]⟩, 1⟩] : List (SplitEntry ℤ ℤ))) ∧
    (∀ (axis k : ℕ) (lo up : MinimumBoundingRegion ℤ) (t : SplitTracker ℤ),
      t.overlap < ((compute_overlap lo up : ℤ) : WithTop ℤ) →
      considerCandidate axis k lo up t = t)) :=
  ⟨le_refl 1, by decide,
    C3_split_choice ℤ 1 4 4 (le_refl 1) (by decide)
      ([⟨⟨[0], [1]⟩, 1⟩] : List (SplitEntry ℤ ℤ))⟩

theorem C3_counterexample :
    (RSTLeafNode.find_best_split 2 4 4
        ([⟨⟨[0, 0], [2, 1]⟩, 1⟩, ⟨⟨[10, 0], [12, 1]⟩, 2⟩, ⟨⟨[0, 9], [2, 10]⟩, 3⟩,
          ⟨⟨[10, 9], [12, 10]⟩, 4⟩, ⟨⟨[10, 9], [12, 10]⟩, 5⟩] :
          List (SplitEntry ℤ ℤ))).map
      (fun p => (p.1.axis, p.1.location, p.1.overlap, p.1.margin)) =
      Except.ok (1, 2, ((0 : ℤ) : WithTop ℤ), ((52 : ℤ) : WithTop ℤ)) ∧
    (0, 2, (0 : ℤ), 48, 40) ∈ splitCandidates 2 4 4
      ([⟨⟨[0, 0], [2, 1]⟩, 1⟩, ⟨⟨[10, 0], [12, 1]⟩, 2⟩, ⟨⟨[0, 9], [2, 10]⟩, 3⟩,
        ⟨⟨[10, 9], [12, 10]⟩, 4⟩, ⟨⟨[10, 9], [12, 10]⟩, 5⟩] :
        List (SplitEntry ℤ ℤ)) ∧
    ((48 : ℤ) : WithTop ℤ) < ((52 : ℤ) : WithTop ℤ) := by decide

/-- C4: amended — when a node splits, the box returned for the new sibling
equals the union of the sibling's entry regions exactly; but on the
install path the parent keeps the split child's pre-split stored subregion
unrefreshed (only the new sibling slot is written), so the claimed exact
equality for every internal entry fails after such an insert (refuted by
`C4_counterexample`). -/
theorem C4_sibling_exact_child_stale [LinearOrder S] (D C : ℕ) (hD : 1 ≤ D)
    (hC : 2 ≤ C) :
    (∀ (h : ℕ) (n : RSTNode R S h) (key : List R) (value : S) (n' : RSTNode R S h)
      (box : MinimumBoundingRegion R) (sib : RSTNode R S h),
      RSTNode.WF C C h n = true →
      RSTNode.insert D C C h n key value = Except.ok (n', some (box, sib)) →
      RSTNode.entryUnion h sib = some box) ∧
    (∀ (h : ℕ) (n : RSTInternalNode R (RSTNode R S h)) (key : List R)
      (c' sib : RSTNode R S h) (box : MinimumBoundingRegion R),
      1 ≤ RSTInternalNode.size n → RSTInternalNode.size n ≠ C →
      n.subregions.length = C → n.children.length = C →
      RSTInternalNode.size n ≤ C →
      ∃ n₁, RSTNode.insertRest D C C n key (c', some (box, sib)) =
          Except.ok (n₁, none) ∧
        (RSTInternalNode.subregions n₁).getD (n.find_best_child_insertion
          (MinimumBoundingRegion.ofPoint key)) none =
          n.subregions.getD (n.find_best_child_insertion
            (MinimumBoundingRegion.ofPoint key)) none ∧
        (RSTInternalNode.subregions n₁).getD (RSTInternalNode.size n) none =
          some box) := by
  constructor
  · intro h n key value n' box sib hWF heq
    obtain ⟨n₂, sp₂, heq₂, -, -, hsome⟩ := insert_ok D hD hC key value h n hWF
    rw [heq] at heq₂
    injection heq₂ with hpair
    injection hpair with h1 h2
    subst h1
    subst h2
    obtain ⟨-, -, -, -, -, huni⟩ := hsome box sib rfl
    exact huni
  · intro h n key c' sib box hpos hnsz hsub hch hszle
    have hbest := find_best_child_lt n (MinimumBoundingRegion.ofPoint key) hpos
    refine ⟨(⟨RSTInternalNode.size n + 1, expandBoxO (RSTInternalNode.region n) box,
      n.subregions.set (RSTInternalNode.size n) (some box),
      (n.children.set (n.find_best_child_insertion (MinimumBoundingRegion.ofPoint key))
        (some c')).set (RSTInternalNode.size n) (some sib)⟩ :
        RSTInternalNode R (RSTNode R S h)), ?_, ?_, ?_⟩
    · simp only [RSTNode.insertRest]
      rw [if_pos hnsz]
    · show (n.subregions.set (RSTInternalNode.size n) (some box)).getD
        (n.find_best_child_insertion (MinimumBoundingRegion.ofPoint key)) none =
        n.subregions.getD (n.find_best_child_insertion
          (MinimumBoundingRegion.ofPoint key)) none
      rw [List.getD_eq_getElem?_getD, List.getD_eq_getElem?_getD,
        List.getElem?_set_ne (by omega : RSTInternalNode.size n ≠
          n.find_best_child_insertion (MinimumBoundingRegion.ofPoint key))]
    · show (n.subregions.set (RSTInternalNode.size n) (some box)).getD
        (RSTInternalNode.size n) none = some box
      rw [List.getD_eq_getElem?_getD,
        List.getElem?_set_self (show RSTInternalNode.size n < n.subregions.length
          by omega)]
      rfl

theorem C4_witness : (1 : ℕ) ≤ 1 ∧ (2 : ℕ) ≤ 2 ∧
    1 ≤ RSTInternalNode.size (⟨1, none, [some ⟨[0], [1]⟩, none],
      [some (⟨1, some ⟨[0], [0]⟩, [some ⟨[0], [0]⟩, none], [some 5, none]⟩ :
        RSTLeafNode ℤ ℤ), none]⟩ : RSTInternalNode ℤ (RSTNode ℤ ℤ 0)) ∧
    (∃ n₁, RSTNode.insertRest 1 2 2 (⟨1, none, [some ⟨[0], [1]⟩, none],
        [some (⟨1, some ⟨[0], [0]⟩, [some ⟨[0], [0]⟩, none], [some 5, none]⟩ :
          RSTLeafNode ℤ ℤ), none]⟩ : RSTInternalNode ℤ (RSTNode ℤ ℤ 0)) [3]
        ((⟨1, some ⟨[0], [0]⟩, [some ⟨[0], [0]⟩, none], [some 5, none]⟩ :
          RSTLeafNode ℤ ℤ),
         some (⟨[7], [7]⟩, (⟨1, some ⟨[7], [7]⟩, [some ⟨[7], [7]⟩, none],
           [some 9, none]⟩ : RSTLeafNode ℤ ℤ))) = Except.ok (n₁, none) ∧
      (RSTInternalNode.subregions n₁).getD
        ((⟨1, none, [some ⟨[0], [1]⟩, none],
          [some (⟨1, some ⟨[0], [0]⟩, [some ⟨[0], [0]⟩, none], [some 5, none]⟩ :
            RSTLeafNode ℤ ℤ), none]⟩ :
          RSTInternalNode ℤ (RSTNode ℤ ℤ 0)).find_best_child_insertion
          (MinimumBoundingRegion.ofPoint [3])) none =
        ([some ⟨[0], [1]⟩, none] :
          List (Option (MinimumBoundingRegion ℤ))).getD
          ((⟨1, none, [some ⟨[0], [1]⟩, none],
            [some (⟨1, some ⟨[0], [0]⟩, [some ⟨[0], [0]⟩, none], [some 5, none]⟩ :
              RSTLeafNode ℤ ℤ), none]⟩ :
            RSTInternalNode ℤ (RSTNode ℤ ℤ 0)).find_best_child_insertion
            (MinimumBoundingRegion.ofPoint [3])) none ∧
      (RSTInternalNode.subregions n₁).getD 1 none = some ⟨[7], [7]⟩) :=
  ⟨le_refl 1, by decide, by decide,
    (C4_sibling_exact_child_stale (R := ℤ) (S := ℤ) 1 2 (le_refl 1) (by decide)).2
      0 (⟨1, none, [some ⟨[0], [1]⟩, none],
        [some (⟨1, some ⟨[0], [0]⟩, [some ⟨[0], [0]⟩, none], [some 5, none]⟩ :
          RSTLeafNode ℤ ℤ), none]⟩ : RSTInternalNode ℤ (RSTNode ℤ ℤ 0)) [3]
      (⟨1, some ⟨[0], [0]⟩, [some ⟨[0], [0]⟩, none], [some 5, none]⟩ :
        RSTLeafNode ℤ ℤ)
      (⟨1, some ⟨[7], [7]⟩, [some ⟨[7], [7]⟩, none], [some 9, none]⟩ :
        RSTLeafNode ℤ ℤ)
      (⟨[7], [7]⟩ : MinimumBoundingRegion ℤ)
      (by decide) (by decide) (by decide) (by decide) (by decide)⟩

theorem C4_counterexample :
    regionsExactAfter
      (buildTree 1 2 2 ([([0], 1), ([10], 2), ([1], 3), ([2], 4)] :
        List (List ℤ × ℤ))) = false ∧
    regionsExactAfter
      (buildTree 1 2 2 ([([0], 1), ([10], 2), ([1], 3)] :
        List (List ℤ × ℤ))) = true := by decide

end Claims

end Logngine
